import Mathlib

/-!
Verification of the gondifees ingestion-and-aggregation pipeline.

This file is a shallow embedding, in Lean 4, of the TypeScript functions of
the repository that the verified properties are about:

* `src/lib/blockchain.ts` — `parseTransactionValue`, `fetchWithRetry` /
  `fetchTransactionsPaginated` (the block-range paginator),
  `fetchEthereumTransactions`, `fetchHyperEVMTransactions`;
* `src/lib/aggregate.ts` — both revisions of `aggregateFees` (the first with
  category breakdowns, the second with the Oct-22-2025 / token filter);
* `src/lib/transaction-classifier.ts` — `classifyTransactionByMethod`,
  `getFeeCategory`;
* the cursor store (`getLastProcessedTransaction`,
  `updateLastProcessedTransaction`, `getStartBlock`, `findLatestTransaction`)
  and the fees route handler logic around it.

Conventions of the embedding:

* JavaScript IEEE-754 numbers are modelled as exact rationals (`ℚ`); claims
  stated "within floating-point tolerance" are settled in exact arithmetic.
* JavaScript objects used as string-keyed dictionaries are modelled as
  insertion-ordered association lists (JS objects preserve insertion order
  for non-index string keys, which all keys used here are).
* External HTTP collaborators (the Etherscan-style indexing API, the price
  feed) are parameters: a provider function per block window, and a partial
  price map `String → Option ℚ` (the source's `prices[currency] || 0` is
  modelled by `Option.getD · 0`).
* The `date-fns` period-key computation (`format`, `startOfWeek`,
  `startOfMonth` in the ambient time zone) is an external library and is
  passed as an abstract key function `Int → String × String × String`.
* A thrown JavaScript exception is modelled by `Option`/`Except` failure.
-/

/-! ## JavaScript string primitives

ASCII-level models of `toLowerCase`, `toUpperCase`, `trim` and
`String.prototype.includes`, written so that they reduce by `decide`. -/

/-- Per-character `toLowerCase` (the method names and symbols used by the
source are ASCII). -/
def jsLower (s : String) : String := String.mk (s.toList.map Char.toLower)

/-- Per-character `toUpperCase`. -/
def jsUpper (s : String) : String := String.mk (s.toList.map Char.toUpper)

/-- `String.prototype.trim`: strip whitespace from both ends. -/
def jsTrim (s : String) : String :=
  String.mk (((s.toList.dropWhile Char.isWhitespace).reverse.dropWhile
    Char.isWhitespace).reverse)

/-- Is `p` a prefix of `l` (Boolean, decidable by evaluation)? -/
def prefixOfList (p l : List Char) : Bool :=
  match p, l with
  | [], _ => true
  | _ :: _, [] => false
  | a :: ps, b :: ls => a = b && prefixOfList ps ls

/-- Does `p` occur as a contiguous run inside `l`? -/
def containsSubAux (p : List Char) : List Char → Bool
  | [] => p.isEmpty
  | c :: ls => prefixOfList p (c :: ls) || containsSubAux p ls

/-- `s.includes(pat)`: substring containment. -/
def jsIncludes (s pat : String) : Bool := containsSubAux pat.toList s.toList

/-- JS truthiness of an optional boolean flag (`undefined` and `false` are
falsy). -/
def jsTruthy (o : Option Bool) : Bool := o.getD false

/-- `x.field || dflt` for an optional numeric field: `undefined` and `0` are
both falsy in JS, so `0` also falls back to the default. Used to model
`tx.tokenDecimal || 18`. -/
def jsOrNat (o : Option Nat) (dflt : Nat) : Nat :=
  match o with
  | some n => if n = 0 then dflt else n
  | none => dflt

/-! ## `BigInt(string)` and `parseTransactionValue` (src/lib/blockchain.ts) -/

/-- Parse a nonempty all-digit run as a natural number. -/
def parseDecDigits : List Char → Option Nat
  | [] => none
  | cs =>
    cs.foldl
      (fun acc c =>
        acc.bind fun n => if c.isDigit then some (n * 10 + (c.toNat - 48)) else none)
      (some 0)

/-- `BigInt(value)` on a string: trims whitespace, the empty string is `0`,
an optional sign followed by decimal digits parses, anything else throws
(`none`). (The hexadecimal/octal/binary prefixes JS also accepts never occur
in this repository's data and are not modelled.) -/
def parseBigInt (s : String) : Option Int :=
  let cs := (jsTrim s).toList
  match cs with
  | [] => some 0
  | '+' :: rest => (parseDecDigits rest).map Int.ofNat
  | '-' :: rest => (parseDecDigits rest).map fun n => -(n : Int)
  | _ => (parseDecDigits cs).map Int.ofNat

/-- `parseTransactionValue` from `src/lib/blockchain.ts` (lines 453-459):
`BigInt(value)` (a parse failure there throws, hence `none`), truncating
division by `10^decimals` for the whole part, and the remainder divided in
floating point for the fractional part — exact in `ℚ`. (`10 ** decimals` is
an exact double for every decimal count used by the repository.) -/
def parseTransactionValue (value : String) (decimals : Nat) : Option ℚ :=
  (parseBigInt value).map fun bigIntValue =>
    let divisor : Int := ((10 : Nat) ^ decimals : Nat)
    let wholePart := bigIntValue.tdiv divisor
    let fractionalPart : ℚ := ((bigIntValue.tmod divisor : Int) : ℚ) / ((divisor : Int) : ℚ)
    ((wholePart : Int) : ℚ) + fractionalPart

/-- The `parseTransactionValue` revision of `src/unnamed/part_001` (lines
14-25): identical arithmetic, but the whole body is wrapped in
`try { ... } catch { return 0; }`, so an unparseable value degrades to `0`
instead of throwing. -/
def parseTransactionValueCaught (value : String) (decimals : Nat) : ℚ :=
  (parseTransactionValue value decimals).getD 0

/-! ## Core data model (src/lib/types.ts) -/

inductive Network
  | ethereum
  | hyperevm
deriving DecidableEq, Repr

inductive TransactionType
  | loan
  | sales
  | unknown
deriving DecidableEq, Repr

inductive FeeCategory
  | loan_usdc
  | loan_weth
  | sales_usdc
  | sales_weth
  | uncategorized
deriving DecidableEq, Repr

/-- `Transaction` from `src/lib/types.ts`. `from`/`to` are Lean keywords and
are rendered `fromAddr`/`toAddr`. `timestamp` is milliseconds since epoch. -/
structure Transaction where
  hash : String
  timestamp : Int
  value : String
  tokenSymbol : Option String := none
  tokenDecimal : Option Nat := none
  fromAddr : String
  toAddr : String
  network : Network
  blockNumber : Option Nat := none
  transactionType : Option TransactionType := none
  feeCategory : Option FeeCategory := none
  method : Option String := none
  rawValue : Option ℚ := none
  isInternalETH : Option Bool := none
deriving DecidableEq, Repr

/-! ## Classifier (src/lib/transaction-classifier.ts) -/

def LOAN_METHODS : List String :=
  ["emit loan", "repay loan", "refinance full", "refinance tranche",
   "refinance", "smart migrate"]

def SALES_METHODS : List String := ["buy", "sell", "execute sell"]

/-- `classifyTransactionByMethod` (lines 22-53). An empty-string `method` is
falsy in JS, hence treated like an absent method. Loan keywords are checked
before sales keywords, and `isInternalETH` is only consulted when no keyword
matched. -/
def classifyTransactionByMethod (transaction : Transaction) : TransactionType :=
  let noMethod : TransactionType :=
    if jsTruthy transaction.isInternalETH then .sales else .unknown
  match transaction.method with
  | none => noMethod
  | some m0 =>
    if m0 = "" then noMethod
    else
      let m := jsTrim (jsLower m0)
      if LOAN_METHODS.any fun loanMethod => jsIncludes m (jsLower loanMethod) then .loan
      else if SALES_METHODS.any fun salesMethod => jsIncludes m (jsLower salesMethod) then .sales
      else if jsTruthy transaction.isInternalETH then .sales
      else .unknown

/-- `getFeeCategory` (lines 58-89). The `transactionType` field being a
nonempty string when present, `transaction.transactionType || classify(...)`
is exactly the `undefined` check. The final `return normalizedToken === ...`
fallback of the source is unreachable (the three enum cases are exhaustive)
and is absorbed by the exhaustive match. -/
def getFeeCategory (transaction : Transaction) : FeeCategory :=
  let transactionType :=
    match transaction.transactionType with
    | some t => t
    | none => classifyTransactionByMethod transaction
  let tokenSymbol := jsUpper (transaction.tokenSymbol.getD "")
  let normalizedToken :=
    if tokenSymbol = "ETH" ∨ tokenSymbol = "WETH" ∨ tokenSymbol = "WHYPE" then "WETH"
    else if tokenSymbol = "USDC" ∨ tokenSymbol = "HUSDC" then "USDC"
    else tokenSymbol
  if jsTruthy transaction.isInternalETH then .sales_weth
  else
    match transactionType with
    | .loan => if normalizedToken = "USDC" then .loan_usdc else .loan_weth
    | .sales => if normalizedToken = "USDC" then .sales_usdc else .sales_weth
    | .unknown => .uncategorized

/-! ## Insertion-ordered string-keyed dictionaries

JS object updates `m[k] = (m[k] || 0) + v` and
`if (!m[k]) m[k] = empty; mutate(m[k])` on string-keyed objects. -/

/-- `m[k] = (m[k] || 0) + v`: add at an existing key in place, else append. -/
def bumpQ (m : List (String × ℚ)) (k : String) (v : ℚ) : List (String × ℚ) :=
  match m with
  | [] => [(k, v)]
  | (k', x) :: rest => if k' = k then (k', x + v) :: rest else (k', x) :: bumpQ rest k v

/-- `if (!m[k]) m[k] = dflt; f` applied to `m[k]`: modify at an existing key,
else append `f dflt`. -/
def upsertWith {α : Type} (m : List (String × α)) (k : String) (dflt : α) (f : α → α) :
    List (String × α) :=
  match m with
  | [] => [(k, f dflt)]
  | (k', x) :: rest =>
    if k' = k then (k', f x) :: rest else (k', x) :: upsertWith rest k dflt f

/-- `m[k] || dflt` (for values where `|| dflt` only replaces a missing key,
or where the default coincides with the falsy value, as with `0`). -/
def lookupD {α : Type} (m : List (String × α)) (k : String) (dflt : α) : α :=
  match m with
  | [] => dflt
  | (k', x) :: rest => if k' = k then x else lookupD rest k dflt

/-- `Object.keys(m)` in insertion order. -/
def keysOf {α : Type} (m : List (String × α)) : List String := m.map Prod.fst

/-- `Object.values(m).reduce((sum, val) => sum + val, 0)`. -/
def sumValues (m : List (String × ℚ)) : ℚ := (m.map Prod.snd).sum

/-! ## Aggregator, first revision of src/lib/aggregate.ts (lines 1-159) -/

/-- A `byCategory` cell of `createEmptyPeriodData`. -/
structure CatCell where
  total : ℚ := 0
  totalUSD : ℚ := 0
deriving DecidableEq, Repr

/-- The five `byCategory` buckets of a period. -/
structure ByCategory where
  loan_usdc : CatCell := {}
  loan_weth : CatCell := {}
  sales_usdc : CatCell := {}
  sales_weth : CatCell := {}
  uncategorized : CatCell := {}
deriving DecidableEq, Repr

/-- `createEmptyPeriodData()` (lines 6-20). -/
structure PeriodData where
  total : ℚ := 0
  totalUSD : ℚ := 0
  currencies : List (String × ℚ) := []
  currenciesUSD : List (String × ℚ) := []
  byCategory : ByCategory := {}
deriving DecidableEq, Repr

/-- An entry of `categoryTotals` (lines 30-36): `{total, totalUSD, count}`. -/
structure CatTotal where
  total : ℚ := 0
  totalUSD : ℚ := 0
  count : Nat := 0
deriving DecidableEq, Repr

/-- `categoryTotals` (lines 30-36). -/
structure CategoryTotals where
  loan_usdc : CatTotal := {}
  loan_weth : CatTotal := {}
  sales_usdc : CatTotal := {}
  sales_weth : CatTotal := {}
  uncategorized : CatTotal := {}
deriving DecidableEq, Repr

/-- `period.byCategory[feeCategory].total += value; ... .totalUSD += valueUSD`. -/
def bumpCatCell (bc : ByCategory) (cat : FeeCategory) (value valueUSD : ℚ) : ByCategory :=
  match cat with
  | .loan_usdc => { bc with loan_usdc :=
      { total := bc.loan_usdc.total + value, totalUSD := bc.loan_usdc.totalUSD + valueUSD } }
  | .loan_weth => { bc with loan_weth :=
      { total := bc.loan_weth.total + value, totalUSD := bc.loan_weth.totalUSD + valueUSD } }
  | .sales_usdc => { bc with sales_usdc :=
      { total := bc.sales_usdc.total + value, totalUSD := bc.sales_usdc.totalUSD + valueUSD } }
  | .sales_weth => { bc with sales_weth :=
      { total := bc.sales_weth.total + value, totalUSD := bc.sales_weth.totalUSD + valueUSD } }
  | .uncategorized => { bc with uncategorized :=
      { total := bc.uncategorized.total + value,
        totalUSD := bc.uncategorized.totalUSD + valueUSD } }

/-- `categoryTotals[feeCategory].total += value; .totalUSD += valueUSD;
.count += 1` (lines 110-112). -/
def bumpCatTotal (ct : CategoryTotals) (cat : FeeCategory) (value valueUSD : ℚ) :
    CategoryTotals :=
  match cat with
  | .loan_usdc => { ct with loan_usdc :=
      { total := ct.loan_usdc.total + value
        totalUSD := ct.loan_usdc.totalUSD + valueUSD
        count := ct.loan_usdc.count + 1 } }
  | .loan_weth => { ct with loan_weth :=
      { total := ct.loan_weth.total + value
        totalUSD := ct.loan_weth.totalUSD + valueUSD
        count := ct.loan_weth.count + 1 } }
  | .sales_usdc => { ct with sales_usdc :=
      { total := ct.sales_usdc.total + value
        totalUSD := ct.sales_usdc.totalUSD + valueUSD
        count := ct.sales_usdc.count + 1 } }
  | .sales_weth => { ct with sales_weth :=
      { total := ct.sales_weth.total + value
        totalUSD := ct.sales_weth.totalUSD + valueUSD
        count := ct.sales_weth.count + 1 } }
  | .uncategorized => { ct with uncategorized :=
      { total := ct.uncategorized.total + value
        totalUSD := ct.uncategorized.totalUSD + valueUSD
        count := ct.uncategorized.count + 1 } }

/-- One period update of the inner loop over `[daily, weekly, monthly]`
(lines 94-105). -/
def bumpPeriod (pd : PeriodData) (displayCurrency : String) (value valueUSD : ℚ)
    (feeCategory : FeeCategory) : PeriodData :=
  { total := pd.total + value
    totalUSD := pd.totalUSD + valueUSD
    currencies := bumpQ pd.currencies displayCurrency value
    currenciesUSD := bumpQ pd.currenciesUSD displayCurrency valueUSD
    byCategory := bumpCatCell pd.byCategory feeCategory value valueUSD }

/-- The mutable aggregation state of `aggregateFees` (first revision). -/
structure AggState where
  daily : List (String × PeriodData) := []
  weekly : List (String × PeriodData) := []
  monthly : List (String × PeriodData) := []
  currencyTotals : List (String × ℚ) := []
  currencyTotalsUSD : List (String × ℚ) := []
  categoryTotals : CategoryTotals := {}
deriving DecidableEq, Repr

/-- One iteration of `transactions.forEach` (lines 55-113). `dateKeys` models
the date-fns daily/weekly/monthly key derivation from the timestamp; `prices`
models the `getMultipleTokenPrices` result (`prices[currency] || 0`). A
transaction with an empty symbol is skipped with a warning; a value string
`BigInt` cannot parse throws, aborting the whole `forEach` (`none`). -/
def processTransaction (prices : String → Option ℚ)
    (dateKeys : Int → String × String × String) (s : AggState) (tx : Transaction) :
    Option AggState :=
  let ks := dateKeys tx.timestamp
  let dateStr := ks.1
  let weekStr := ks.2.1
  let monthStr := ks.2.2
  let displayCurrency := jsUpper (tx.tokenSymbol.getD "")
  let currency := if displayCurrency = "ETH" then "WETH" else displayCurrency
  if currency = "" then some s
  else
    match parseTransactionValue tx.value (jsOrNat tx.tokenDecimal 18) with
    | none => none
    | some value =>
      let price := (prices currency).getD 0
      let valueUSD := value * price
      let feeCategory : FeeCategory :=
        if displayCurrency = "USDC" then .sales_usdc
        else if displayCurrency = "WETH" ∨ displayCurrency = "ETH" then .sales_weth
        else .uncategorized
      some
        { daily := upsertWith s.daily dateStr {}
            (fun pd => bumpPeriod pd displayCurrency value valueUSD feeCategory)
          weekly := upsertWith s.weekly weekStr {}
            (fun pd => bumpPeriod pd displayCurrency value valueUSD feeCategory)
          monthly := upsertWith s.monthly monthStr {}
            (fun pd => bumpPeriod pd displayCurrency value valueUSD feeCategory)
          currencyTotals := bumpQ s.currencyTotals displayCurrency value
          currencyTotalsUSD := bumpQ s.currencyTotalsUSD displayCurrency valueUSD
          categoryTotals := bumpCatTotal s.categoryTotals feeCategory value valueUSD }

/-- An entry of the returned `currencyBreakdown` (lines 116-129). -/
structure CurrencyBreakdownEntry where
  total : ℚ
  totalUSD : ℚ
  percentage : ℚ
deriving DecidableEq, Repr

/-- An entry of the returned `categoryBreakdown` (lines 134-151): the spread
`...categoryTotals.x` keeps `total`, `totalUSD` and `count`, and adds the
`percentage`. -/
structure CategoryBreakdownEntry where
  total : ℚ
  totalUSD : ℚ
  count : Nat
  percentage : ℚ
deriving DecidableEq, Repr

/-- `categoryBreakdownWithPercentages` (lines 134-151). The source object has
exactly four keys: the `uncategorized` bucket of `categoryTotals` is dropped
from the returned breakdown. -/
structure CategoryBreakdown where
  loan_usdc : CategoryBreakdownEntry
  loan_weth : CategoryBreakdownEntry
  sales_usdc : CategoryBreakdownEntry
  sales_weth : CategoryBreakdownEntry
deriving DecidableEq, Repr

/-- The `AggregatedFees` report of the first revision. -/
structure AggregatedFees where
  daily : List (String × PeriodData)
  weekly : List (String × PeriodData)
  monthly : List (String × PeriodData)
  currencyBreakdown : List (String × CurrencyBreakdownEntry)
  categoryBreakdown : CategoryBreakdown
deriving DecidableEq, Repr

/-- `Object.values(categoryTotals).reduce((sum, cat) => sum + cat.totalUSD, 0)`
(line 120): all five buckets, `uncategorized` included. -/
def catTotalsUSDSum (ct : CategoryTotals) : ℚ :=
  ct.loan_usdc.totalUSD + ct.loan_weth.totalUSD + ct.sales_usdc.totalUSD +
    ct.sales_weth.totalUSD + ct.uncategorized.totalUSD

/-- One `{...categoryTotals.x, percentage}` entry (lines 135-150). -/
def mkCategoryBreakdownEntry (c : CatTotal) (totalCategoriesUSD : ℚ) :
    CategoryBreakdownEntry :=
  { total := c.total, totalUSD := c.totalUSD, count := c.count,
    percentage :=
      if totalCategoriesUSD > 0 then c.totalUSD / totalCategoriesUSD * 100 else 0 }

/-- Lines 116-159: the percentage computations and the returned report. -/
def finalizeAggregate (s : AggState) : AggregatedFees :=
  let totalAllCurrenciesUSD := sumValues s.currencyTotalsUSD
  let totalCategoriesUSD := catTotalsUSDSum s.categoryTotals
  { daily := s.daily, weekly := s.weekly, monthly := s.monthly
    currencyBreakdown := s.currencyTotals.map fun p =>
      let totalUSD := lookupD s.currencyTotalsUSD p.1 0
      (p.1,
        { total := p.2, totalUSD := totalUSD,
          percentage :=
            if totalAllCurrenciesUSD > 0 then totalUSD / totalAllCurrenciesUSD * 100
            else 0 })
    categoryBreakdown :=
      { loan_usdc := mkCategoryBreakdownEntry s.categoryTotals.loan_usdc totalCategoriesUSD
        loan_weth := mkCategoryBreakdownEntry s.categoryTotals.loan_weth totalCategoriesUSD
        sales_usdc := mkCategoryBreakdownEntry s.categoryTotals.sales_usdc totalCategoriesUSD
        sales_weth :=
          mkCategoryBreakdownEntry s.categoryTotals.sales_weth totalCategoriesUSD } }

/-- `aggregateFees` (first revision, lines 22-160): fold the `forEach` over
all transactions (an exception anywhere loses the whole report), then build
the breakdowns. -/
def aggregateFees (prices : String → Option ℚ)
    (dateKeys : Int → String × String × String) (transactions : List Transaction) :
    Option AggregatedFees :=
  (transactions.foldlM (processTransaction prices dateKeys) {}).map finalizeAggregate

/-! ## Aggregator, second revision of src/lib/aggregate.ts (lines 160-282) -/

/-- A period entry of the second revision (no `byCategory`). -/
structure PeriodDataF where
  total : ℚ := 0
  totalUSD : ℚ := 0
  currencies : List (String × ℚ) := []
  currenciesUSD : List (String × ℚ) := []
deriving DecidableEq, Repr

/-- The aggregation state of the second revision. -/
structure AggStateF where
  daily : List (String × PeriodDataF) := []
  weekly : List (String × PeriodDataF) := []
  monthly : List (String × PeriodDataF) := []
  currencyTotals : List (String × ℚ) := []
  currencyTotalsUSD : List (String × ℚ) := []
deriving DecidableEq, Repr

/-- The report of the second revision (no category breakdown). -/
structure AggregatedFeesF where
  daily : List (String × PeriodDataF)
  weekly : List (String × PeriodDataF)
  monthly : List (String × PeriodDataF)
  currencyBreakdown : List (String × CurrencyBreakdownEntry)
deriving DecidableEq, Repr

/-- `['USDC', 'WETH', 'HUSDC', 'WHYPE']` (line 177). -/
def VALID_TOKENS : List String := ["USDC", "WETH", "HUSDC", "WHYPE"]

/-- `new Date('2025-10-22T00:00:00Z').getTime()` (line 174), in
milliseconds. -/
def firstFeeTimestamp : Int := 1761091200000

/-- The predicate of `transactions.filter` (lines 175-180). -/
def keepTransaction (tx : Transaction) : Bool :=
  let symbol := jsUpper (tx.tokenSymbol.getD "")
  let isValidToken := VALID_TOKENS.contains symbol
  let isValidDate := tx.timestamp ≥ firstFeeTimestamp
  isValidToken && isValidDate

/-- One iteration of `filteredTransactions.forEach` (lines 200-249). -/
def processTransactionF (prices : String → Option ℚ)
    (dateKeys : Int → String × String × String) (s : AggStateF) (tx : Transaction) :
    Option AggStateF :=
  let ks := dateKeys tx.timestamp
  let dateStr := ks.1
  let weekStr := ks.2.1
  let monthStr := ks.2.2
  let currency := jsUpper (tx.tokenSymbol.getD "")
  if currency = "" ∨ ¬ (VALID_TOKENS.contains currency) then some s
  else
    match parseTransactionValue tx.value (jsOrNat tx.tokenDecimal 18) with
    | none => none
    | some value =>
      let price := (prices currency).getD 0
      let valueUSD := value * price
      let bump1 : PeriodDataF → PeriodDataF := fun pd =>
        { total := pd.total + value
          totalUSD := pd.totalUSD + valueUSD
          currencies := bumpQ pd.currencies currency value
          currenciesUSD := bumpQ pd.currenciesUSD currency valueUSD }
      some
        { daily := upsertWith s.daily dateStr {} bump1
          weekly := upsertWith s.weekly weekStr {} bump1
          monthly := upsertWith s.monthly monthStr {} bump1
          currencyTotals := bumpQ s.currencyTotals currency value
          currencyTotalsUSD := bumpQ s.currencyTotalsUSD currency valueUSD }

/-- Lines 251-281: grand total and currency breakdown of the second
revision. -/
def finalizeAggregateF (s : AggStateF) : AggregatedFeesF :=
  let grandTotalUSD := sumValues s.currencyTotalsUSD
  { daily := s.daily, weekly := s.weekly, monthly := s.monthly
    currencyBreakdown := s.currencyTotals.map fun p =>
      (p.1,
        { total := p.2
          totalUSD := lookupD s.currencyTotalsUSD p.1 0
          percentage :=
            if grandTotalUSD > 0 then lookupD s.currencyTotalsUSD p.1 0 / grandTotalUSD * 100
            else 0 }) }

/-- `aggregateFees` (second revision, lines 165-282): filter to the valid
tokens from Oct 22, 2025 onward, then fold and build the breakdown. -/
def aggregateFeesFiltered (prices : String → Option ℚ)
    (dateKeys : Int → String × String × String) (transactions : List Transaction) :
    Option AggregatedFeesF :=
  let filteredTransactions := transactions.filter keepTransaction
  (filteredTransactions.foldlM (processTransactionF prices dateKeys) {}).map
    finalizeAggregateF

/-! ## Incremental cursor store (src/unnamed/part_002) -/

/-- `LastProcessedTransaction` (part_002 lines 4-10). -/
structure LastProcessedTransaction where
  network : Network
  blockNumber : Nat
  timestamp : Int
  hash : String
  lastUpdated : String
deriving DecidableEq, Repr

/-- `LastProcessedData` (part_002 lines 12-15): the per-network keyed
store (server side, the in-memory `serverStorage`). -/
structure LastProcessedData where
  ethereum : Option LastProcessedTransaction := none
  hyperevm : Option LastProcessedTransaction := none
deriving DecidableEq, Repr

/-- `getLastProcessedTransaction` (lines 63-71): `data[network] || null`. -/
def getLastProcessedTransaction (data : LastProcessedData) (network : Network) :
    Option LastProcessedTransaction :=
  match network with
  | .ethereum => data.ethereum
  | .hyperevm => data.hyperevm

/-- `updateLastProcessedTransaction` (lines 76-98): an unconditional
overwrite of `data[network]`; `now` is the `new Date().toISOString()`
value. -/
def updateLastProcessedTransaction (data : LastProcessedData) (network : Network)
    (blockNumber : Nat) (timestamp : Int) (hash : String) (now : String) :
    LastProcessedData :=
  let entry : LastProcessedTransaction :=
    { network := network, blockNumber := blockNumber, timestamp := timestamp,
      hash := hash, lastUpdated := now }
  match network with
  | .ethereum => { data with ethereum := some entry }
  | .hyperevm => { data with hyperevm := some entry }

/-- `getStartBlock` (lines 104-115): the block after the last processed one,
or `0` when no cursor exists. -/
def getStartBlock (data : LastProcessedData) (network : Network) : Nat :=
  match getLastProcessedTransaction data network with
  | none => 0
  | some lastProcessed => lastProcessed.blockNumber + 1

/-- The record returned by `findLatestTransaction`. -/
structure LatestInfo where
  blockNumber : Nat
  hash : String
  timestamp : Int
deriving DecidableEq, Repr

/-- `!x.blockNumber` for an optional numeric field: truthy for `undefined`
and for `0`. -/
def jsFalsyBlock (o : Option Nat) : Bool :=
  match o with
  | none => true
  | some n => n = 0

/-- `findLatestTransaction` (lines 120-144): keep transactions that carry a
block number, `reduce` to the one with the highest block (strict comparison,
earlier element kept on ties; a falsy `blockNumber` — `undefined` or `0` —
is skipped inside the reducer), and return `null` if the winner's block
number is falsy. -/
def findLatestTransaction (transactions : List Transaction) : Option LatestInfo :=
  let transactionsWithBlocks := transactions.filter fun tx => tx.blockNumber.isSome
  match transactionsWithBlocks with
  | [] => none
  | first :: rest =>
    let latest := rest.foldl
      (fun latest current =>
        if jsFalsyBlock current.blockNumber then latest
        else if jsFalsyBlock latest.blockNumber then current
        else if current.blockNumber.getD 0 > latest.blockNumber.getD 0 then current
        else latest)
      first
    match latest.blockNumber with
    | none => none
    | some b => if b = 0 then none
      else some { blockNumber := b, hash := latest.hash, timestamp := latest.timestamp }

/-- The start-block selection of the incremental fees route
(src/unnamed/part_005 lines 126-152): `fullRefresh` and `incremental` are
derived from the query string (`searchParams.get` returns a string or
null), `hasLastProcessed` is the truthiness of either network's cursor, and
the network's start block is `getStartBlock` only for an incremental run
with a cursor present. -/
def routeStartBlock (incrementalParam : Option String) (fullRefresh : Bool)
    (data : LastProcessedData) (network : Network) : Nat :=
  let hasLastProcessed :=
    (getLastProcessedTransaction data .ethereum).isSome ||
      (getLastProcessedTransaction data .hyperevm).isSome
  let incremental :=
    if fullRefresh then false
    else
      incrementalParam = some "true" ||
        (incrementalParam ≠ some "false" && hasLastProcessed)
  if fullRefresh then 0
  else if incremental && hasLastProcessed then getStartBlock data network
  else 0

/-! ## Network collectors (src/lib/blockchain.ts) -/

/-- A raw record of the indexing API's `result` array. The wire format
carries `blockNumber`, `timeStamp` and `tokenDecimal` as decimal digit
strings; they are modelled as their `parseInt` values (`timeStamp` in
seconds). `value` stays a string: the source parses it with `BigInt`. -/
structure RawRecord where
  blockNumber : Nat
  timeStamp : Int
  hash : String
  fromAddr : String
  toAddr : String
  value : String
  tokenName : Option String := none
  tokenSymbol : Option String := none
  tokenDecimal : Option Nat := none
  contractAddress : Option String := none
deriving DecidableEq, Repr

def ETHEREUM_ADDRESS : String := "0x4169447a424ec645f8a24dccfd8328f714dd5562"

def HYPEREVM_ADDRESS : String := "0xbc0b9c63dc0581278d4b554af56858298bf2a9ec"

/-- The Ethereum collector's filter predicate (blockchain.ts lines 251-267):
addressed to the fee address (case-insensitive), symbol USDC or
WETH/WETHEREUM, and `tx.value && BigInt(tx.value) > 0`. The `&&` chain
short-circuits, so `BigInt` — which throws on a malformed string (`none`) —
only runs when the earlier conjuncts hold. -/
def ethKeepRecord (tx : RawRecord) : Option Bool :=
  let isToFeeAddress := tx.toAddr ≠ "" && jsLower tx.toAddr = jsLower ETHEREUM_ADDRESS
  let tokenSymbol := jsUpper (tx.tokenSymbol.getD "")
  let isUSDC := tokenSymbol = "USDC"
  let isWETH := tokenSymbol = "WETH" ∨ tokenSymbol = "WETHEREUM"
  let isValidToken := isUSDC || isWETH
  if isToFeeAddress && isValidToken && tx.value ≠ "" then
    match parseBigInt tx.value with
    | none => none
    | some v => some (decide (v > 0))
  else some false

/-- The Ethereum collector's map step (lines 268-286): WETHEREUM collapses
to WETH, decimals default to 6 for USDC and 18 otherwise when the record
omits them, timestamps scale from seconds to milliseconds. -/
def ethMapRecord (tx : RawRecord) : Transaction :=
  let tokenSymbol0 := jsUpper (tx.tokenSymbol.getD "")
  let tokenSymbol := if tokenSymbol0 = "WETHEREUM" then "WETH" else tokenSymbol0
  { hash := tx.hash
    timestamp := tx.timeStamp * 1000
    value := tx.value
    tokenSymbol := some tokenSymbol
    tokenDecimal := some
      (match tx.tokenDecimal with
       | some d => d
       | none => if tokenSymbol = "USDC" then 6 else 18)
    fromAddr := tx.fromAddr
    toAddr := tx.toAddr
    network := .ethereum
    blockNumber := some tx.blockNumber }

/-- `tokenResults.filter(...).map(...)` of the Ethereum collector, with the
possible `BigInt` throw surfacing as `none`. -/
def filterMapEthereum : List RawRecord → Option (List Transaction)
  | [] => some []
  | tx :: rest =>
    match ethKeepRecord tx with
    | none => none
    | some true => (filterMapEthereum rest).map fun l => ethMapRecord tx :: l
    | some false => filterMapEthereum rest

/-- `fetchEthereumTransactions` (lines 200-325) as a function of its
paginated fetch outcome: any failure — of the fetch itself, or a `BigInt`
throw while filtering — is caught by the outer `try/catch` and yields an
empty list ("Return empty array to allow partial success"). -/
def fetchEthereumTransactions (fetchResult : Except String (List RawRecord)) :
    List Transaction :=
  match fetchResult with
  | .error _ => []
  | .ok tokenResults =>
    match filterMapEthereum tokenResults with
    | none => []
    | some txs => txs

/-- The HyperEVM symbol remap of the collector's map step (lines 392-398):
USDC is retagged to the network-qualified alias HUSDC; WRHYPER and wrapped
names collapse to WHYPE. -/
def hyperevmNormalizeSymbol (tokenSymbol tokenName : Option String) : String :=
  let s := jsUpper (tokenSymbol.getD "")
  if s = "USDC" then "HUSDC"
  else if s = "WRHYPER" ∨ jsIncludes (jsUpper (tokenName.getD "")) "WRAP" then "WHYPE"
  else s

/-- The HyperEVM collector's filter predicate (lines 373-389). -/
def hyperKeepRecord (tx : RawRecord) : Option Bool :=
  let isToFeeAddress := tx.toAddr ≠ "" && jsLower tx.toAddr = jsLower HYPEREVM_ADDRESS
  let tokenSymbol := jsUpper (tx.tokenSymbol.getD "")
  let tokenName := jsUpper (tx.tokenName.getD "")
  let isUSDC := tokenSymbol = "USDC"
  let isWHYPE := tokenSymbol = "WHYPE" ∨ tokenSymbol = "WRHYPER" ∨
    jsIncludes tokenName "WRAP" ∨ jsIncludes tokenName "HYPE"
  let isValidToken := isUSDC || isWHYPE
  if isToFeeAddress && isValidToken && tx.value ≠ "" then
    match parseBigInt tx.value with
    | none => none
    | some v => some (decide (v > 0))
  else some false

/-- The HyperEVM collector's map step (lines 391-411). -/
def hyperMapRecord (tx : RawRecord) : Transaction :=
  let tokenSymbol := hyperevmNormalizeSymbol tx.tokenSymbol tx.tokenName
  { hash := tx.hash
    timestamp := tx.timeStamp * 1000
    value := tx.value
    tokenSymbol := some tokenSymbol
    tokenDecimal := some
      (match tx.tokenDecimal with
       | some d => d
       | none => if tokenSymbol = "HUSDC" then 6 else 18)
    fromAddr := tx.fromAddr
    toAddr := tx.toAddr
    network := .hyperevm
    blockNumber := some tx.blockNumber }

/-- `tokenResults.filter(...).map(...)` of the HyperEVM collector. -/
def filterMapHyperEVM : List RawRecord → Option (List Transaction)
  | [] => some []
  | tx :: rest =>
    match hyperKeepRecord tx with
    | none => none
    | some true => (filterMapHyperEVM rest).map fun l => hyperMapRecord tx :: l
    | some false => filterMapHyperEVM rest

/-- `fetchHyperEVMTransactions` (lines 327-451): like the Ethereum
collector, every failure is absorbed into an empty list by the outer
`try/catch` ("Ethereum might still work"). -/
def fetchHyperEVMTransactions (fetchResult : Except String (List RawRecord)) :
    List Transaction :=
  match fetchResult with
  | .error _ => []
  | .ok tokenResults =>
    match filterMapHyperEVM tokenResults with
    | none => []
    | some txs => txs

/-! ## Block-range paginator (src/lib/blockchain.ts lines 116-198) -/

/-- `BLOCK_RANGE` (line 127). -/
def BLOCK_RANGE (network : Network) : Nat :=
  match network with
  | .ethereum => 100000
  | .hyperevm => 500000

/-- The Etherscan per-call result cap (line 128). -/
def MAX_RESULTS : Nat := 10000

/-- `MAX_EMPTY_RANGES` (line 129). -/
def MAX_EMPTY_RANGES (network : Network) : Nat :=
  match network with
  | .ethereum => 50
  | .hyperevm => 10

/-- The observable outcome of a paginated fetch: the accumulated results,
the log of block windows actually fetched (the line-143 log statement), and
the windows for which the exactly-`MAX_RESULTS` possible-truncation warning
fired (the line-159 log statement). -/
structure PaginatedFetch where
  allResults : List RawRecord := []
  windows : List (Nat × Nat) := []
  truncWarnings : List (Nat × Nat) := []
deriving DecidableEq, Repr

/-- The `while` loop of `fetchTransactionsPaginated` (lines 138-194), with
the per-window `fetchWithRetry` outcome supplied by `provider`. `fuel`
enforces `attempt < maxAttempts`; `attempt` is the source's 1-based counter
(used in the first-window-failure check of line 186). A window returning
exactly `MAX_RESULTS` records the truncation warning and advances to
`currentEnd + 1` exactly like any other window; a failing window is fatal
only when it is the first attempt with nothing collected, and is otherwise
skipped. -/
def pagLoop (provider : Nat → Nat → Except String (List RawRecord))
    (endBlock BR MAXE : Nat) :
    Nat → Nat → Nat → Nat → PaginatedFetch → Except String PaginatedFetch
  | 0, _, _, _, st => .ok st
  | fuel + 1, attempt, currentStart, consecutiveEmptyRanges, st =>
    if currentStart > endBlock then .ok st
    else
      let attempt1 := attempt + 1
      let currentEnd := min (currentStart + BR - 1) endBlock
      let st1 := { st with windows := st.windows ++ [(currentStart, currentEnd)] }
      match provider currentStart currentEnd with
      | .error e =>
        if st1.allResults.length = 0 ∧ attempt1 = 1 then .error e
        else pagLoop provider endBlock BR MAXE fuel attempt1 (currentEnd + 1)
          consecutiveEmptyRanges st1
      | .ok results =>
        let st2 :=
          if results.length > 0 then { st1 with allResults := st1.allResults ++ results }
          else st1
        let consec := if results.length > 0 then 0 else consecutiveEmptyRanges + 1
        if results.length = MAX_RESULTS then
          pagLoop provider endBlock BR MAXE fuel attempt1 (currentEnd + 1) consec
            { st2 with truncWarnings := st2.truncWarnings ++ [(currentStart, currentEnd)] }
        else if results.length > 0 then
          pagLoop provider endBlock BR MAXE fuel attempt1 (currentEnd + 1) consec st2
        else if st2.allResults.length > 0 ∧ consec ≥ MAXE then .ok st2
        else pagLoop provider endBlock BR MAXE fuel attempt1 (currentEnd + 1) consec st2

/-- `fetchTransactionsPaginated` (lines 118-198). `maxAttempts` is
`Math.ceil((endBlock - startBlock) / BLOCK_RANGE) + 100`. -/
def fetchTransactionsPaginated (provider : Nat → Nat → Except String (List RawRecord))
    (startBlock endBlock : Nat) (network : Network) : Except String PaginatedFetch :=
  let BR := BLOCK_RANGE network
  let maxAttempts := (endBlock - startBlock + BR - 1) / BR + 100
  pagLoop provider endBlock BR (MAX_EMPTY_RANGES network) maxAttempts 0 startBlock 0 {}

/-! ## Fees route pipeline (src/app/api/fees/route.ts lines 62-144) -/

/-- The API branch of the fees route `GET` handler: both collectors run
under `Promise.allSettled` — and, catching internally, they always fulfill —
their results are concatenated, an empty union is an error response, and the
merged list is aggregated (an `aggregateFees` throw would be caught by the
route's outer catch and become the 500 error response, modelled as
`.error`). -/
def feesRoutePipeline (ethFetch hyperFetch : Except String (List RawRecord))
    (prices : String → Option ℚ) (dateKeys : Int → String × String × String) :
    Except String AggregatedFees :=
  let ethereumTxs := fetchEthereumTransactions ethFetch
  let hyperevmTxs := fetchHyperEVMTransactions hyperFetch
  let allTransactions := ethereumTxs ++ hyperevmTxs
  if allTransactions.length = 0 then .error "No transactions found from APIs"
  else
    match aggregateFees prices dateKeys allTransactions with
    | none => .error "Failed to fetch fee data"
    | some aggregated => .ok aggregated

/-! ## Derived sums and predicates used by the verified properties -/

/-- Sum of `totalUSD` over the entries of a currency breakdown. -/
def curBreakdownUSDSum (l : List (String × CurrencyBreakdownEntry)) : ℚ :=
  (l.map fun p => p.2.totalUSD).sum

/-- Sum of `percentage` over the entries of a currency breakdown. -/
def curBreakdownPctSum (l : List (String × CurrencyBreakdownEntry)) : ℚ :=
  (l.map fun p => p.2.percentage).sum

/-- Sum of `totalUSD` over the four entries of the returned category
breakdown. -/
def catBreakdownUSDSum (cb : CategoryBreakdown) : ℚ :=
  cb.loan_usdc.totalUSD + cb.loan_weth.totalUSD + cb.sales_usdc.totalUSD +
    cb.sales_weth.totalUSD

/-- Sum of `percentage` over the four entries of the returned category
breakdown. -/
def catBreakdownPctSum (cb : CategoryBreakdown) : ℚ :=
  cb.loan_usdc.percentage + cb.loan_weth.percentage + cb.sales_usdc.percentage +
    cb.sales_weth.percentage

/-- The uppercased symbols for which the first `aggregateFees` revision picks
one of the four returned category buckets (`""` is skipped entirely); any
other symbol lands in the dropped `uncategorized` bucket. -/
def fourCategorySymbols : List String := ["USDC", "WETH", "ETH", ""]

/-- Every transaction's uppercased symbol stays within the four returned
category buckets (or is skipped). -/
def onlyFourCategorySymbols (txs : List Transaction) : Prop :=
  ∀ tx ∈ txs, jsUpper (tx.tokenSymbol.getD "") ∈ fourCategorySymbols

/-- The price map only returns nonnegative spot prices. -/
def pricesNonneg (prices : String → Option ℚ) : Prop :=
  ∀ c q, prices c = some q → 0 ≤ q

/-- Every transaction's raw `value` string, when it parses at all, is a
nonnegative integer (the invariant of token-transfer amounts). -/
def valuesNonneg (txs : List Transaction) : Prop :=
  ∀ tx ∈ txs, ∀ v, parseBigInt tx.value = some v → 0 ≤ v

/-- The bookkeeping invariant of the first revision's fold: the two
currency dictionaries are updated in tandem (same keys, no duplicates) and
the USD they accumulate equals the USD accumulated over all five category
buckets. -/
def aggConservationInv (s : AggState) : Prop :=
  keysOf s.currencyTotals = keysOf s.currencyTotalsUSD ∧
  (keysOf s.currencyTotalsUSD).Nodup ∧
  sumValues s.currencyTotalsUSD = catTotalsUSDSum s.categoryTotals

/-- Nonnegativity of every accumulated USD figure. -/
def aggNonnegInv (s : AggState) : Prop :=
  (∀ q ∈ s.currencyTotalsUSD.map Prod.snd, 0 ≤ q) ∧
  0 ≤ s.categoryTotals.loan_usdc.totalUSD ∧
  0 ≤ s.categoryTotals.loan_weth.totalUSD ∧
  0 ≤ s.categoryTotals.sales_usdc.totalUSD ∧
  0 ≤ s.categoryTotals.sales_weth.totalUSD ∧
  0 ≤ s.categoryTotals.uncategorized.totalUSD

/-! ## Concrete scenario inputs for the closed examples -/

/-- A concrete price-oracle snapshot for closed scenarios. -/
def demoPrices : String → Option ℚ := fun symbol =>
  if symbol = "USDC" then some 1
  else if symbol = "HUSDC" then some 1
  else if symbol = "WETH" then some 2500
  else if symbol = "WHYPE" then some 30
  else none

/-- A concrete period-key function for closed scenarios (all the sample
transactions fall on the same day). -/
def demoDateKeys : Int → String × String × String := fun _ =>
  ("2025-10-22", "2025-10-19", "2025-10")

/-- Network-A USDC fee transfer: decimals 6, raw value `"1000000"`
(= 1.0 native). -/
def txEthUSDC : Transaction :=
  { hash := "0xa1", timestamp := 1761091200000, value := "1000000",
    tokenSymbol := some "USDC", tokenDecimal := some 6, fromAddr := "0xf1",
    toAddr := ETHEREUM_ADDRESS, network := .ethereum, blockNumber := some 100 }

/-- Network-B USDC fee transfer already remapped to the network-qualified
alias HUSDC: decimals 6, raw value `"2000000"` (= 2.0 native). -/
def txHyperHUSDC : Transaction :=
  { hash := "0xb2", timestamp := 1761091200000, value := "2000000",
    tokenSymbol := some "HUSDC", tokenDecimal := some 6, fromAddr := "0xf2",
    toAddr := HYPEREVM_ADDRESS, network := .hyperevm, blockNumber := some 200 }

/-- The period bucket produced by aggregating `[txEthUSDC]` under
`demoPrices`. -/
def pdOneUSDC : PeriodData :=
  { total := 1, totalUSD := 1, currencies := [("USDC", 1)],
    currenciesUSD := [("USDC", 1)],
    byCategory := { sales_usdc := { total := 1, totalUSD := 1 } } }

/-- The full report of `aggregateFees demoPrices demoDateKeys [txEthUSDC]`. -/
def oneUSDCReport : AggregatedFees :=
  { daily := [("2025-10-22", pdOneUSDC)]
    weekly := [("2025-10-19", pdOneUSDC)]
    monthly := [("2025-10", pdOneUSDC)]
    currencyBreakdown := [("USDC", { total := 1, totalUSD := 1, percentage := 100 })]
    categoryBreakdown :=
      { loan_usdc := { total := 0, totalUSD := 0, count := 0, percentage := 0 }
        loan_weth := { total := 0, totalUSD := 0, count := 0, percentage := 0 }
        sales_usdc := { total := 1, totalUSD := 1, count := 1, percentage := 100 }
        sales_weth := { total := 0, totalUSD := 0, count := 0, percentage := 0 } } }

/-- The period bucket produced by aggregating `[txEthUSDC, txHyperHUSDC]`
under `demoPrices` (both fall on the same period keys). -/
def pdTwoToken : PeriodData :=
  { total := 3, totalUSD := 3, currencies := [("USDC", 1), ("HUSDC", 2)],
    currenciesUSD := [("USDC", 1), ("HUSDC", 2)],
    byCategory := { sales_usdc := { total := 1, totalUSD := 1 },
                    uncategorized := { total := 2, totalUSD := 2 } } }

/-- The full report of
`aggregateFees demoPrices demoDateKeys [txEthUSDC, txHyperHUSDC]`: the HUSDC
transaction lands in the dropped `uncategorized` bucket, so the returned
category breakdown only accounts for 1 of the 3 USD. -/
def twoTokenReport : AggregatedFees :=
  { daily := [("2025-10-22", pdTwoToken)]
    weekly := [("2025-10-19", pdTwoToken)]
    monthly := [("2025-10", pdTwoToken)]
    currencyBreakdown :=
      [("USDC", { total := 1, totalUSD := 1, percentage := 100 / 3 }),
       ("HUSDC", { total := 2, totalUSD := 2, percentage := 200 / 3 })]
    categoryBreakdown :=
      { loan_usdc := { total := 0, totalUSD := 0, count := 0, percentage := 0 }
        loan_weth := { total := 0, totalUSD := 0, count := 0, percentage := 0 }
        sales_usdc := { total := 1, totalUSD := 1, count := 1, percentage := 100 / 3 }
        sales_weth := { total := 0, totalUSD := 0, count := 0, percentage := 0 } } }

/-- A transaction whose `value` string cannot be parsed by `BigInt`. -/
def txBadValue : Transaction :=
  { hash := "0xdead", timestamp := 1761091200000, value := "not-a-number",
    tokenSymbol := some "USDC", tokenDecimal := some 6, fromAddr := "0xf3",
    toAddr := ETHEREUM_ADDRESS, network := .ethereum, blockNumber := some 300 }

/-- An empty cursor store. -/
def emptyStore : LastProcessedData := { ethereum := none, hyperevm := none }

/-- A cursor recorded after processing `txEthUSDC` (block 100). -/
def ethCursor100 : LastProcessedTransaction :=
  { network := .ethereum, blockNumber := 100, timestamp := 1761091200000,
    hash := "0xa1", lastUpdated := "t1" }

/-- A store holding only the Ethereum cursor at block 100. -/
def storeWithEthCursor : LastProcessedData :=
  { ethereum := some ethCursor100, hyperevm := none }

/-- The `findLatestTransaction` outcome for `[txEthUSDC]`. -/
def latestOfTxEthUSDC : LatestInfo :=
  { blockNumber := 100, hash := "0xa1", timestamp := 1761091200000 }

/-- A USDC transaction dated before the 2025-10-22 cutoff. -/
def txOldUSDC : Transaction :=
  { hash := "0xold", timestamp := 0, value := "1000000",
    tokenSymbol := some "USDC", tokenDecimal := some 6, fromAddr := "0xf",
    toAddr := ETHEREUM_ADDRESS, network := .ethereum }

/-- One raw USDC token-transfer record addressed to the Ethereum fee
address. -/
def rawUSDCRecord : RawRecord :=
  { blockNumber := 123, timeStamp := 1761091200, hash := "0xr1",
    fromAddr := "0xf1", toAddr := ETHEREUM_ADDRESS, value := "1000000",
    tokenName := some "USD Coin", tokenSymbol := some "USDC",
    tokenDecimal := some 6 }

/-- One raw record of a synthetic page-capped window. -/
def capRecord : RawRecord :=
  { blockNumber := 7, timeStamp := 1761091200, hash := "0xcap",
    fromAddr := "0xf7", toAddr := ETHEREUM_ADDRESS, value := "1",
    tokenSymbol := some "USDC", tokenDecimal := some 6 }

/-- Exactly `MAX_RESULTS` records: the page-size cap. -/
def capList : List RawRecord := List.replicate 10000 capRecord

/-- A synthetic provider returning exactly the page-size cap for the window
starting at block 0 and no results for every other window. -/
def capProvider : Nat → Nat → Except String (List RawRecord) := fun s _ =>
  if s = 0 then .ok capList else .ok []

/-- The outcome of running the paginator over `capProvider` for blocks
0-149999 on the Ethereum window size. -/
def capRunResult : PaginatedFetch :=
  { allResults := capList, windows := [(0, 99999), (100000, 149999)],
    truncWarnings := [(0, 99999)] }

/-! # Theorems -/

/-! ## Arithmetic of `parseTransactionValue` -/

/-- The whole/fractional split of `parseTransactionValue` recombines to the
exact quotient `v / 10^decimals`. -/
theorem parseTransactionValue_eq (value : String) (decimals : Nat) (v : Int)
    (h : parseBigInt value = some v) :
    parseTransactionValue value decimals = some ((v : ℚ) / ((10 : ℚ) ^ decimals)) := by
  simp only [parseTransactionValue, h, Option.map_some]
  have hcast : (((10 : Nat) ^ decimals : Nat) : Int) = (10 : Int) ^ decimals := by
    push_cast; ring
  rw [hcast]
  have hsplit := Int.tdiv_add_tmod v ((10 : Int) ^ decimals)
  have hq : ((10 : ℚ) ^ decimals) * ((v.tdiv ((10 : Int) ^ decimals) : Int) : ℚ)
      + ((v.tmod ((10 : Int) ^ decimals) : Int) : ℚ) = (v : ℚ) := by
    exact_mod_cast hsplit
  have hDQ : ((10 : ℚ) ^ decimals) ≠ 0 := by positivity
  push_cast
  field_simp
  linear_combination hq

/-! ## Generic fold lemmas -/

/-- A fold in the `Option` monad fails whenever some list element fails at
every state. -/
theorem foldlM_eq_none {σ α : Type} (f : σ → α → Option σ) (l : List α) (a : α)
    (hmem : a ∈ l) (hfail : ∀ s, f s a = none) :
    ∀ init, l.foldlM f init = none := by
  induction l with
  | nil => cases hmem
  | cons head tail ih =>
    intro init
    rcases List.mem_cons.mp hmem with heq | hmem2
    · subst heq
      simp [List.foldlM_cons, hfail]
    · rw [List.foldlM_cons]
      cases h1 : f init head with
      | none => rfl
      | some s1 => simpa using ih hmem2 s1

/-- An invariant preserved by every step of a successful `Option` fold holds
at the end. -/
theorem foldlM_invariant {σ α : Type} (f : σ → α → Option σ) {P : σ → Prop}
    (l : List α)
    (hstep : ∀ a ∈ l, ∀ t t', P t → f t a = some t' → P t') :
    ∀ init s, P init → l.foldlM f init = some s → P s := by
  induction l with
  | nil =>
    intro init s hinit hfold
    simp only [List.foldlM_nil] at hfold
    cases hfold
    exact hinit
  | cons head tail ih =>
    intro init s hinit hfold
    rw [List.foldlM_cons] at hfold
    cases h1 : f init head with
    | none => rw [h1] at hfold; cases hfold
    | some s1 =>
      rw [h1] at hfold
      simp only [Option.bind_eq_bind, Option.some_bind] at hfold
      exact ih (fun a ha => hstep a (List.mem_cons_of_mem _ ha))
        s1 s (hstep head (List.mem_cons_self head tail) init s1 hinit h1) hfold

/-! ## C3: cursor monotonicity -/

/-- C3 counterexample: `write(ethereum, 10, ...)` followed by
`write(ethereum, 5, ...)` leaves the stored cursor at block 5, not 10 —
`updateLastProcessedTransaction` overwrites unconditionally, so the cursor
*does* regress, contradicting the claim that it still holds `b1 = 10`. -/
theorem updateLastProcessedTransaction_regression_counterexample :
    (getLastProcessedTransaction
      (updateLastProcessedTransaction
        (updateLastProcessedTransaction
          { ethereum := none, hyperevm := none } .ethereum 10 1000 "0xaa" "t1")
        .ethereum 5 500 "0xbb" "t2") .ethereum).map
      LastProcessedTransaction.blockNumber = some 5 ∧
    (5 : Nat) < 10 ∧ some (5 : Nat) ≠ some 10 := by decide

/-- C3 amended: for every pair of consecutive writes to the same network key
with `b2 < b1`, the stored cursor holds `b2`: the write is a deterministic,
unconditional last-writer-wins overwrite, with no monotonicity guard. -/
theorem updateLastProcessedTransaction_last_writer_wins
    (data : LastProcessedData) (network : Network) (b1 b2 : Nat) (t1 t2 : Int)
    (h1 h2 n1 n2 : String) (_hlt : b2 < b1) :
    getLastProcessedTransaction
      (updateLastProcessedTransaction
        (updateLastProcessedTransaction data network b1 t1 h1 n1)
        network b2 t2 h2 n2) network =
      some { network := network, blockNumber := b2, timestamp := t2, hash := h2,
             lastUpdated := n2 } := by
  cases network <;>
    simp [getLastProcessedTransaction, updateLastProcessedTransaction]

theorem updateLastProcessedTransaction_last_writer_wins_witness :
    (5 : Nat) < 10 ∧
    getLastProcessedTransaction
      (updateLastProcessedTransaction
        (updateLastProcessedTransaction
          { ethereum := none, hyperevm := none } .ethereum 10 1000 "0xaa" "t1")
        .ethereum 5 500 "0xbb" "t2") .ethereum =
      some { network := .ethereum, blockNumber := 5, timestamp := 500, hash := "0xbb",
             lastUpdated := "t2" } :=
  ⟨by decide,
    updateLastProcessedTransaction_last_writer_wins
      { ethereum := none, hyperevm := none } .ethereum 10 5 1000 500 "0xaa" "0xbb"
      "t1" "t2" (by decide)⟩

/-! ## C9: `isInternalETH` classification -/

/-- C9 counterexample: a transaction with `isInternalETH = true` whose
resolved method contains a loan keyword is classified `loan` by
`classifyTransactionByMethod`, not `sales` — the loan-keyword check runs
before the `isInternalETH` fallback, so the flag does not override it. -/
theorem classifyTransactionByMethod_internalETH_counterexample :
    classifyTransactionByMethod
      { hash := "0x1", timestamp := 0, value := "1", fromAddr := "a", toAddr := "b",
        network := .ethereum, method := some "Emit Loan",
        isInternalETH := some true } = .loan ∧
    TransactionType.loan ≠ TransactionType.sales := by decide

/-- C9 amended: for `isInternalETH = true`, `getFeeCategory` does always
return `sales_weth` (its internal-transfer check precedes the type mapping);
`classifyTransactionByMethod` returns `sales` when the method is absent, and
when a method is present only provided no loan keyword matches it — a
loan-keyword method takes precedence and yields `loan`. -/
theorem classify_internalETH_amended (tx : Transaction)
    (hflag : jsTruthy tx.isInternalETH = true) :
    getFeeCategory tx = .sales_weth ∧
    (tx.method = none → classifyTransactionByMethod tx = .sales) ∧
    (∀ m, tx.method = some m →
      (LOAN_METHODS.any fun loanMethod =>
        jsIncludes (jsTrim (jsLower m)) (jsLower loanMethod)) = false →
      classifyTransactionByMethod tx = .sales) := by
  refine ⟨?_, ?_, ?_⟩
  · simp [getFeeCategory, hflag]
  · intro hm
    simp [classifyTransactionByMethod, hm, hflag]
  · intro m hm hloan
    simp only [classifyTransactionByMethod, hm, hflag]
    by_cases hemp : m = ""
    · simp [hemp]
    · simp only [hemp, if_false, hloan, Bool.false_eq_true, if_true]
      by_cases hsales : (SALES_METHODS.any fun salesMethod =>
          jsIncludes (jsTrim (jsLower m)) (jsLower salesMethod)) = true
      · simp [hsales]
      · simp [hsales]

theorem classify_internalETH_amended_witness :
    jsTruthy (Transaction.isInternalETH
      { hash := "0x2", timestamp := 0, value := "1", fromAddr := "a", toAddr := "b",
        network := .ethereum, method := some "transfer",
        isInternalETH := some true }) = true ∧
    getFeeCategory
      { hash := "0x2", timestamp := 0, value := "1", fromAddr := "a", toAddr := "b",
        network := .ethereum, method := some "transfer",
        isInternalETH := some true } = .sales_weth ∧
    classifyTransactionByMethod
      { hash := "0x2", timestamp := 0, value := "1", fromAddr := "a", toAddr := "b",
        network := .ethereum, method := some "transfer",
        isInternalETH := some true } = .sales :=
  ⟨by decide,
    (classify_internalETH_amended
      { hash := "0x2", timestamp := 0, value := "1", fromAddr := "a", toAddr := "b",
        network := .ethereum, method := some "transfer",
        isInternalETH := some true } (by decide)).1,
    (classify_internalETH_amended
      { hash := "0x2", timestamp := 0, value := "1", fromAddr := "a", toAddr := "b",
        network := .ethereum, method := some "transfer",
        isInternalETH := some true } (by decide)).2.2 "transfer" rfl (by decide)⟩

/-! ## C10: the second revision's transaction filter -/

/-- C10: the filtering `aggregateFees` revision drops — before any
accumulation, with no warning — every transaction dated before
2025-10-22T00:00:00Z and every transaction whose uppercased symbol is not
USDC, WETH, HUSDC or WHYPE: the report over a list containing such a
transaction equals the report with it removed, so it contributes to no
period bucket and no currency total. -/
theorem aggregateFeesFiltered_excludes (prices : String → Option ℚ)
    (dateKeys : Int → String × String × String) (l1 l2 : List Transaction)
    (tx : Transaction)
    (h : tx.timestamp < firstFeeTimestamp ∨
      VALID_TOKENS.contains (jsUpper (tx.tokenSymbol.getD "")) = false) :
    aggregateFeesFiltered prices dateKeys (l1 ++ tx :: l2) =
      aggregateFeesFiltered prices dateKeys (l1 ++ l2) := by
  have hkeep : keepTransaction tx = false := by
    unfold keepTransaction
    rcases h with h | h
    · simp only [Bool.and_eq_false_iff, decide_eq_false_iff_not, not_le]
      right
      exact h
    · simp only [Bool.and_eq_false_iff]
      exact Or.inl h
  unfold aggregateFeesFiltered
  rw [List.filter_append, List.filter_cons_of_neg, ← List.filter_append]
  simp [hkeep]

theorem aggregateFeesFiltered_excludes_witness :
    (txOldUSDC.timestamp < firstFeeTimestamp ∨
      VALID_TOKENS.contains (jsUpper (txOldUSDC.tokenSymbol.getD "")) = false) ∧
    aggregateFeesFiltered demoPrices demoDateKeys ([] ++ txOldUSDC :: [txEthUSDC]) =
      aggregateFeesFiltered demoPrices demoDateKeys ([] ++ [txEthUSDC]) :=
  ⟨Or.inl (by decide),
    aggregateFeesFiltered_excludes demoPrices demoDateKeys [] [txEthUSDC] txOldUSDC
      (Or.inl (by decide))⟩

/-! ## C7: start-block contract and incremental resumption -/

/-- C7: (i) `getStartBlock` returns `cursor.blockNumber + 1` whenever a
cursor record exists for the network and `0` when none exists; (ii) after a
run writes the cursor from `findLatestTransaction` (the maximum block seen),
a subsequent default route invocation (no `fullRefresh`, no explicit
`incremental` parameter) computes its paginator start block as
`cursor.blockNumber + 1`. -/
theorem getStartBlock_contract :
    (∀ (data : LastProcessedData) (network : Network) (c : LastProcessedTransaction),
      getLastProcessedTransaction data network = some c →
      getStartBlock data network = c.blockNumber + 1) ∧
    (∀ (data : LastProcessedData) (network : Network),
      getLastProcessedTransaction data network = none →
      getStartBlock data network = 0) ∧
    (∀ (data : LastProcessedData) (network : Network) (txs : List Transaction)
      (latest : LatestInfo) (now : String),
      findLatestTransaction txs = some latest →
      routeStartBlock none false
        (updateLastProcessedTransaction data network latest.blockNumber
          latest.timestamp latest.hash now) network = latest.blockNumber + 1) := by
  refine ⟨?_, ?_, ?_⟩
  · intro data network c hc
    simp [getStartBlock, hc]
  · intro data network hc
    simp [getStartBlock, hc]
  · intro data network txs latest now _hfound
    cases network <;>
      simp [routeStartBlock, getStartBlock, getLastProcessedTransaction,
        updateLastProcessedTransaction]

theorem getStartBlock_contract_witness :
    getLastProcessedTransaction storeWithEthCursor .ethereum = some ethCursor100 ∧
    getStartBlock storeWithEthCursor .ethereum = 101 ∧
    getLastProcessedTransaction emptyStore .hyperevm = none ∧
    getStartBlock emptyStore .hyperevm = 0 ∧
    findLatestTransaction [txEthUSDC] = some latestOfTxEthUSDC ∧
    routeStartBlock none false
      (updateLastProcessedTransaction emptyStore .ethereum
        latestOfTxEthUSDC.blockNumber latestOfTxEthUSDC.timestamp
        latestOfTxEthUSDC.hash "t2") .ethereum = latestOfTxEthUSDC.blockNumber + 1 :=
  ⟨by decide,
    getStartBlock_contract.1 storeWithEthCursor .ethereum ethCursor100 (by decide),
    by decide,
    getStartBlock_contract.2.1 emptyStore .hyperevm (by decide),
    by decide,
    getStartBlock_contract.2.2 emptyStore .ethereum [txEthUSDC] latestOfTxEthUSDC
      "t2" (by decide)⟩

/-! ## C5: malformed value strings -/

/-- A transaction with a nonempty symbol whose `value` string `BigInt`
cannot parse makes the `forEach` body throw at every state. -/
theorem processTransaction_none_of_badValue (prices : String → Option ℚ)
    (dateKeys : Int → String × String × String) (s : AggState) (tx : Transaction)
    (hsym : jsUpper (tx.tokenSymbol.getD "") ≠ "")
    (hval : parseBigInt tx.value = none) :
    processTransaction prices dateKeys s tx = none := by
  unfold processTransaction
  have hparse : parseTransactionValue tx.value (jsOrNat tx.tokenDecimal 18) = none := by
    simp [parseTransactionValue, hval]
  have hcur : (if jsUpper (tx.tokenSymbol.getD "") = "ETH" then "WETH"
      else jsUpper (tx.tokenSymbol.getD "")) ≠ "" := by
    split
    · decide
    · exact hsym
  simp [hcur, hparse]

/-- C5 counterexample: one well-formed USDC transaction together with one
transaction whose `value` string is unparseable: `aggregateFees` (over
`src/lib/blockchain.ts`'s unguarded `parseTransactionValue`) returns no
report at all — the malformed transaction is not skipped, it aborts the
whole aggregation, and the well-formed transaction's data is lost. -/
theorem aggregateFees_malformed_counterexample :
    aggregateFees demoPrices demoDateKeys [txEthUSDC, txBadValue] = none := by
  have h2 : ∀ s, processTransaction demoPrices demoDateKeys s txBadValue = none :=
    fun s => processTransaction_none_of_badValue demoPrices demoDateKeys s txBadValue
      (by decide) (by decide)
  unfold aggregateFees
  rw [foldlM_eq_none (processTransaction demoPrices demoDateKeys)
    [txEthUSDC, txBadValue] txBadValue (by decide) h2]
  rfl

/-- C5 amended: a transaction with a nonempty symbol and an unparseable
`value` string causes the whole `aggregateFees` call (first revision, over
`src/lib/blockchain.ts`'s `parseTransactionValue`) to fail — no report is
produced and the remaining transactions are lost, rather than the single
transaction being skipped. Only the `part_001` revision guards the parse,
and it degrades the value to `0` (the transaction still participates with
zero value; it is not skipped). -/
theorem aggregateFees_fails_on_malformed_value (prices : String → Option ℚ)
    (dateKeys : Int → String × String × String) (txs : List Transaction)
    (tx : Transaction) (hmem : tx ∈ txs)
    (hsym : jsUpper (tx.tokenSymbol.getD "") ≠ "")
    (hval : parseBigInt tx.value = none) :
    aggregateFees prices dateKeys txs = none ∧
    ∀ decimals, parseTransactionValueCaught tx.value decimals = 0 := by
  constructor
  · unfold aggregateFees
    rw [foldlM_eq_none (processTransaction prices dateKeys) txs tx hmem
      (fun s => processTransaction_none_of_badValue prices dateKeys s tx hsym hval)]
    rfl
  · intro decimals
    simp [parseTransactionValueCaught, parseTransactionValue, hval]

theorem aggregateFees_fails_on_malformed_value_witness :
    (txBadValue ∈ [txBadValue]) ∧
    (aggregateFees demoPrices demoDateKeys [txBadValue] = none ∧
      ∀ decimals, parseTransactionValueCaught txBadValue.value decimals = 0) :=
  ⟨by decide,
    aggregateFees_fails_on_malformed_value demoPrices demoDateKeys [txBadValue]
      txBadValue (by decide) (by decide) (by decide)⟩

/-! ## C4: paginator behaviour at the page-size cap -/

/-- The loop stops once the window start passes `endBlock`. -/
theorem pagLoop_stop (p : Nat → Nat → Except String (List RawRecord))
    (eB BR MAXE fuel attempt cs ce : Nat) (st : PaginatedFetch) (h : cs > eB) :
    pagLoop p eB BR MAXE (fuel + 1) attempt cs ce st = .ok st := by
  simp only [pagLoop, if_pos h]

/-- A window returning exactly `MAX_RESULTS` results: the warning is
recorded and the loop advances to `currentEnd + 1` like any other window. -/
theorem pagLoop_cap_advance (p : Nat → Nat → Except String (List RawRecord))
    (eB BR MAXE fuel attempt cs ce cEnd : Nat) (st : PaginatedFetch)
    (results : List RawRecord) (hcs : ¬ cs > eB)
    (hEnd : min (cs + BR - 1) eB = cEnd) (hp : p cs cEnd = .ok results)
    (hlen : results.length = MAX_RESULTS) :
    pagLoop p eB BR MAXE (fuel + 1) attempt cs ce st =
      pagLoop p eB BR MAXE fuel (attempt + 1) (cEnd + 1) 0
        { allResults := st.allResults ++ results
          windows := st.windows ++ [(cs, cEnd)]
          truncWarnings := st.truncWarnings ++ [(cs, cEnd)] } := by
  have hMR : MAX_RESULTS > 0 := by decide
  have hpos : results.length > 0 := by rw [hlen]; exact hMR
  simp only [pagLoop, if_neg hcs, hEnd, hp, hlen, if_pos hpos, hpos, hMR, if_true,
    eq_self_iff_true]

/-- An empty window below the stop threshold: the loop advances with the
consecutive-empty counter incremented. -/
theorem pagLoop_empty_continue (p : Nat → Nat → Except String (List RawRecord))
    (eB BR MAXE fuel attempt cs ce cEnd : Nat) (st : PaginatedFetch)
    (hcs : ¬ cs > eB) (hEnd : min (cs + BR - 1) eB = cEnd)
    (hp : p cs cEnd = .ok [])
    (hbreak : ¬ (st.allResults.length > 0 ∧ ce + 1 ≥ MAXE)) :
    pagLoop p eB BR MAXE (fuel + 1) attempt cs ce st =
      pagLoop p eB BR MAXE fuel (attempt + 1) (cEnd + 1) (ce + 1)
        { st with windows := st.windows ++ [(cs, cEnd)] } := by
  simp only [pagLoop, if_neg hcs, hEnd, hp, List.length_nil, if_neg hbreak]
  norm_num [MAX_RESULTS]
  intro h1 h2
  exact absurd ⟨h1, h2⟩ hbreak

/-- C4 counterexample: a provider returning exactly the 10,000-record cap
for the first window (blocks 0-99999) and nothing afterwards. The paginator
*does* advance past that window's `currentEnd`: it goes on to fetch the
window starting at `currentEnd + 1 = 100000`, refuting the claim that it
does not advance past `currentEnd` (the possible-truncation warning for the
capped window is recorded, so the flagging half of the claim does hold). -/
theorem fetchTransactionsPaginated_cap_counterexample :
    (fetchTransactionsPaginated capProvider 0 149999 .ethereum).map
        (fun st => (st.windows, st.truncWarnings)) =
      .ok ([(0, 99999), (100000, 149999)], [(0, 99999)]) ∧
    (100000 : Nat) = 99999 + 1 := by
  have hcap : capProvider 0 99999 = .ok capList := rfl
  have hlen : capList.length = MAX_RESULTS := by
    unfold capList MAX_RESULTS
    rw [List.length_replicate]
  have hempty : capProvider 100000 149999 = .ok [] := rfl
  refine ⟨?_, rfl⟩
  unfold fetchTransactionsPaginated
  have hfuel : (149999 - 0 + BLOCK_RANGE Network.ethereum - 1) /
      BLOCK_RANGE Network.ethereum + 100 = 101 + 1 := by norm_num [BLOCK_RANGE]
  simp only [BLOCK_RANGE, MAX_EMPTY_RANGES]
  rw [show (149999 - 0 + 100000 - 1) / 100000 + 100 = 101 + 1 by norm_num]
  rw [pagLoop_cap_advance capProvider 149999 100000 50 101 0 0 0 99999 {} capList
    (by norm_num) (by norm_num) hcap hlen]
  rw [show (101 : Nat) = 100 + 1 by norm_num]
  rw [pagLoop_empty_continue capProvider 149999 100000 50 100 1 100000 0 149999 _
    (by norm_num) (by norm_num) hempty (by rintro ⟨-, h2⟩; omega)]
  rw [show (100 : Nat) = 99 + 1 by norm_num]
  rw [pagLoop_stop capProvider 149999 100000 50 99 2 150000 1 _ (by norm_num)]
  simp
  rfl

/-- Every window the paginator queried whose provider response was exactly
`MAX_RESULTS` records appears among the recorded truncation warnings
(stated relative to an arbitrary starting state; warnings only
accumulate). -/
theorem pagLoop_warn (p : Nat → Nat → Except String (List RawRecord))
    (eB BR MAXE : Nat) :
    ∀ (fuel attempt cs ce : Nat) (st stf : PaginatedFetch),
      pagLoop p eB BR MAXE fuel attempt cs ce st = .ok stf →
      ((∀ w, w ∈ st.truncWarnings → w ∈ stf.truncWarnings) ∧
        ∀ w, w ∈ stf.windows → w ∉ st.windows →
          ∀ l, p w.1 w.2 = .ok l → l.length = MAX_RESULTS →
            w ∈ stf.truncWarnings) := by
  intro fuel
  induction fuel with
  | zero =>
    intro attempt cs ce st stf h
    simp only [pagLoop] at h
    cases h
    exact ⟨fun w hw => hw, fun w hw hnw _ _ _ => absurd hw hnw⟩
  | succ n ih =>
    intro attempt cs ce st stf h
    by_cases hcs : cs > eB
    · rw [pagLoop_stop p eB BR MAXE n attempt cs ce st hcs] at h
      injection h with h2
      subst h2
      exact ⟨fun w hw => hw, fun w hw hnw _ _ _ => absurd hw hnw⟩
    · simp only [pagLoop, if_neg hcs] at h
      rcases heq : p cs (min (cs + BR - 1) eB) with e | results
      · rw [heq] at h
        simp only at h
        by_cases hfat : st.allResults.length = 0 ∧ attempt + 1 = 1
        · rw [if_pos hfat] at h
          exact absurd h (by simp)
        · rw [if_neg hfat] at h
          obtain ⟨ihm, ihw⟩ := ih _ _ _ _ _ h
          refine ⟨fun w hw => ihm w hw, ?_⟩
          intro w hw hnw l hl hlen
          by_cases hmem : w ∈ st.windows ++ [(cs, min (cs + BR - 1) eB)]
          · rcases List.mem_append.mp hmem with hold | hnew
            · exact absurd hold hnw
            · have hwe := List.mem_singleton.mp hnew
              subst hwe
              rw [heq] at hl
              exact absurd hl (by simp)
          · exact ihw w hw hmem l hl hlen
      · rw [heq] at h
        simp only at h
        by_cases hpos : results.length > 0
        · simp only [if_pos hpos] at h
          by_cases hmax : results.length = MAX_RESULTS
          · simp only [if_pos hmax] at h
            obtain ⟨ihm, ihw⟩ := ih _ _ _ _ _ h
            refine ⟨fun w hw => ihm w (List.mem_append_left _ hw), ?_⟩
            intro w hw hnw l hl hlen
            by_cases hmem : w ∈ st.windows ++ [(cs, min (cs + BR - 1) eB)]
            · rcases List.mem_append.mp hmem with hold | hnew
              · exact absurd hold hnw
              · have hwe := List.mem_singleton.mp hnew
                subst hwe
                exact ihm _ (List.mem_append_right _ (List.mem_singleton.mpr rfl))
            · exact ihw w hw hmem l hl hlen
          · simp only [if_neg hmax, if_pos hpos] at h
            obtain ⟨ihm, ihw⟩ := ih _ _ _ _ _ h
            refine ⟨fun w hw => ihm w hw, ?_⟩
            intro w hw hnw l hl hlen
            by_cases hmem : w ∈ st.windows ++ [(cs, min (cs + BR - 1) eB)]
            · rcases List.mem_append.mp hmem with hold | hnew
              · exact absurd hold hnw
              · have hwe := List.mem_singleton.mp hnew
                subst hwe
                rw [heq] at hl
                injection hl with hl2
                rw [← hl2] at hlen
                exact absurd hlen hmax
            · exact ihw w hw hmem l hl hlen
        · have hlen0 : results.length = 0 := Nat.eq_zero_of_not_pos hpos
          have hmax : ¬ results.length = MAX_RESULTS := by
            rw [hlen0]; decide
          simp only [if_neg hpos, if_neg hmax] at h
          by_cases hbr : st.allResults.length > 0 ∧ ce + 1 ≥ MAXE
          · rw [if_pos hbr] at h
            injection h with h2
            subst h2
            refine ⟨fun w hw => hw, ?_⟩
            intro w hw hnw l hl hlen
            rcases List.mem_append.mp hw with hold | hnew
            · exact absurd hold hnw
            · have hwe := List.mem_singleton.mp hnew
              subst hwe
              rw [heq] at hl
              injection hl with hl2
              rw [← hl2] at hlen
              exact absurd hlen hmax
          · rw [if_neg hbr] at h
            obtain ⟨ihm, ihw⟩ := ih _ _ _ _ _ h
            refine ⟨fun w hw => ihm w hw, ?_⟩
            intro w hw hnw l hl hlen
            by_cases hmem : w ∈ st.windows ++ [(cs, min (cs + BR - 1) eB)]
            · rcases List.mem_append.mp hmem with hold | hnew
              · exact absurd hold hnw
              · have hwe := List.mem_singleton.mp hnew
                subst hwe
                rw [heq] at hl
                injection hl with hl2
                rw [← hl2] at hlen
                exact absurd hlen hmax
            · exact ihw w hw hmem l hl hlen

/-- `capList` has exactly the cap length. -/
theorem capList_length : capList.length = MAX_RESULTS := by
  unfold capList MAX_RESULTS
  rw [List.length_replicate]

/-- The full outcome of the synthetic capped run. -/
theorem capRun_eq :
    fetchTransactionsPaginated capProvider 0 149999 .ethereum = .ok capRunResult := by
  unfold fetchTransactionsPaginated
  simp only [BLOCK_RANGE, MAX_EMPTY_RANGES]
  rw [show (149999 - 0 + 100000 - 1) / 100000 + 100 = 101 + 1 by norm_num]
  rw [pagLoop_cap_advance capProvider 149999 100000 50 101 0 0 0 99999 {} capList
    (by norm_num) (by norm_num) rfl capList_length]
  rw [show (101 : Nat) = 100 + 1 by norm_num]
  rw [pagLoop_empty_continue capProvider 149999 100000 50 100 1 100000 0 149999 _
    (by norm_num) (by norm_num) rfl (by rintro ⟨-, h2⟩; omega)]
  rw [show (100 : Nat) = 99 + 1 by norm_num]
  rw [pagLoop_stop capProvider 149999 100000 50 99 2 150000 1 _ (by norm_num)]
  rfl

/-- C4 amended: a block-range window returning exactly the page-size cap is
never silently treated as complete — the possible-truncation warning is
always recorded for it — but, contrary to the claim, the paginator then
advances past that window's `currentEnd` to `currentEnd + 1` exactly like
any other window (it neither halts there nor re-splits the window). -/
theorem fetchTransactionsPaginated_cap_flagged :
    (∀ (provider : Nat → Nat → Except String (List RawRecord))
      (startBlock endBlock : Nat) (network : Network) (stf : PaginatedFetch),
      fetchTransactionsPaginated provider startBlock endBlock network = .ok stf →
      ∀ w, w ∈ stf.windows → ∀ l, provider w.1 w.2 = .ok l →
        l.length = MAX_RESULTS → w ∈ stf.truncWarnings) ∧
    (∀ (provider : Nat → Nat → Except String (List RawRecord))
      (eB BR MAXE fuel attempt cs ce cEnd : Nat) (st : PaginatedFetch)
      (results : List RawRecord),
      ¬ cs > eB → min (cs + BR - 1) eB = cEnd → provider cs cEnd = .ok results →
      results.length = MAX_RESULTS →
      pagLoop provider eB BR MAXE (fuel + 1) attempt cs ce st =
        pagLoop provider eB BR MAXE fuel (attempt + 1) (cEnd + 1) 0
          { allResults := st.allResults ++ results
            windows := st.windows ++ [(cs, cEnd)]
            truncWarnings := st.truncWarnings ++ [(cs, cEnd)] }) := by
  constructor
  · intro provider startBlock endBlock network stf h w hw l hl hlen
    unfold fetchTransactionsPaginated at h
    exact (pagLoop_warn provider endBlock (BLOCK_RANGE network)
      (MAX_EMPTY_RANGES network) _ _ _ _ _ _ h).2 w hw
      (List.not_mem_nil w) l hl hlen
  · intro provider eB BR MAXE fuel attempt cs ce cEnd st results hcs hEnd hp hlen
    exact pagLoop_cap_advance provider eB BR MAXE fuel attempt cs ce cEnd st results
      hcs hEnd hp hlen

theorem fetchTransactionsPaginated_cap_flagged_witness :
    fetchTransactionsPaginated capProvider 0 149999 .ethereum = .ok capRunResult ∧
    (0, 99999) ∈ capRunResult.windows ∧
    capProvider 0 99999 = .ok capList ∧
    capList.length = MAX_RESULTS ∧
    (0, 99999) ∈ capRunResult.truncWarnings :=
  ⟨capRun_eq, by decide, rfl, capList_length,
    fetchTransactionsPaginated_cap_flagged.1 capProvider 0 149999 .ethereum
      capRunResult capRun_eq (0, 99999) (by decide) capList rfl capList_length⟩

/-! ## Dictionary lemmas -/

theorem sumValues_bumpQ (m : List (String × ℚ)) (k : String) (v : ℚ) :
    sumValues (bumpQ m k v) = sumValues m + v := by
  induction m with
  | nil => simp [bumpQ, sumValues]
  | cons p rest ih =>
    obtain ⟨a, x⟩ := p
    by_cases hk : a = k
    · simp [bumpQ, hk, sumValues]
      ring
    · simp only [bumpQ, if_neg hk, sumValues, List.map_cons, List.sum_cons] at ih ⊢
      rw [ih]
      ring

theorem keysOf_bumpQ (m : List (String × ℚ)) (k : String) (v : ℚ) :
    keysOf (bumpQ m k v) =
      if k ∈ keysOf m then keysOf m else keysOf m ++ [k] := by
  induction m with
  | nil => simp [bumpQ, keysOf]
  | cons p rest ih =>
    obtain ⟨a, x⟩ := p
    by_cases hk : a = k
    · subst hk
      simp [bumpQ, keysOf]
    · simp only [bumpQ, if_neg hk, keysOf, List.map_cons] at ih ⊢
      rw [ih]
      by_cases hmem : k ∈ List.map Prod.fst rest
      · simp [hmem, Ne.symm hk]
      · simp [hmem, Ne.symm hk]

theorem nodupKeys_bumpQ (m : List (String × ℚ)) (k : String) (v : ℚ)
    (h : (keysOf m).Nodup) : (keysOf (bumpQ m k v)).Nodup := by
  rw [keysOf_bumpQ]
  by_cases hmem : k ∈ keysOf m
  · simpa [hmem] using h
  · rw [if_neg hmem]
    rw [List.nodup_append]
    exact ⟨h, List.nodup_singleton k,
      fun a ha hb => hmem (by rwa [List.mem_singleton.mp hb] at ha)⟩

theorem lookupD_head (a : String) (x : ℚ) (rest : List (String × ℚ)) :
    lookupD ((a, x) :: rest) a 0 = x := by
  simp [lookupD]

theorem lookupD_of_ne (a : String) (x : ℚ) (rest : List (String × ℚ)) (k : String)
    (h : a ≠ k) : lookupD ((a, x) :: rest) k 0 = lookupD rest k 0 := by
  simp [lookupD, h]

theorem sum_lookupD_keys (m : List (String × ℚ)) (h : (keysOf m).Nodup) :
    ((keysOf m).map fun k => lookupD m k 0).sum = sumValues m := by
  induction m with
  | nil => simp [keysOf, sumValues]
  | cons p rest ih =>
    obtain ⟨a, x⟩ := p
    simp only [keysOf, List.map_cons, List.sum_cons, sumValues] at h ih ⊢
    rw [List.nodup_cons] at h
    have hmap : (List.map Prod.fst rest).map (fun k => lookupD ((a, x) :: rest) k 0) =
        (List.map Prod.fst rest).map (fun k => lookupD rest k 0) := by
      apply List.map_congr_left
      intro k hk
      exact lookupD_of_ne a x rest k (fun hak => h.1 (hak ▸ hk))
    rw [lookupD_head, hmap, ih h.2]

theorem values_nonneg_bumpQ (m : List (String × ℚ)) (k : String) (v : ℚ)
    (hm : ∀ q ∈ m.map Prod.snd, 0 ≤ q) (hv : 0 ≤ v) :
    ∀ q ∈ (bumpQ m k v).map Prod.snd, 0 ≤ q := by
  induction m with
  | nil =>
    intro q hq
    simp only [bumpQ, List.map_cons, List.map_nil, List.mem_singleton] at hq
    exact hq ▸ hv
  | cons p rest ih =>
    obtain ⟨a, x⟩ := p
    intro q hq
    by_cases hk : a = k
    · simp only [bumpQ, if_pos hk, List.map_cons, List.mem_cons] at hq
      rcases hq with hq | hq
      · have hx : (0:ℚ) ≤ x := hm x (by simp)
        exact hq ▸ add_nonneg hx hv
      · exact hm q (by simp [hq])
    · simp only [bumpQ, if_neg hk, List.map_cons, List.mem_cons] at hq
      rcases hq with hq | hq
      · exact hm q (by simp [hq])
      · refine ih ?_ q hq
        intro r hr
        refine hm r ?_
        simp only [List.map_cons, List.mem_cons]
        exact Or.inr hr

theorem lookupD_mem_or_zero (m : List (String × ℚ)) (k : String) :
    lookupD m k 0 = 0 ∨ lookupD m k 0 ∈ m.map Prod.snd := by
  induction m with
  | nil => exact Or.inl rfl
  | cons p rest ih =>
    obtain ⟨a, x⟩ := p
    by_cases hk : a = k
    · subst hk
      right
      simp [lookupD_head]
    · rw [lookupD_of_ne a x rest k hk]
      rcases ih with h | h
      · exact Or.inl h
      · exact Or.inr (by simp [h])

/-! ## Category bucket lemmas -/

theorem catTotalsUSDSum_bump (ct : CategoryTotals) (cat : FeeCategory)
    (v u : ℚ) : catTotalsUSDSum (bumpCatTotal ct cat v u) = catTotalsUSDSum ct + u := by
  cases cat <;> simp [bumpCatTotal, catTotalsUSDSum] <;> ring

theorem uncat_bumpCatTotal (ct : CategoryTotals) (cat : FeeCategory) (v u : ℚ)
    (h : cat ≠ .uncategorized) :
    (bumpCatTotal ct cat v u).uncategorized = ct.uncategorized := by
  cases cat <;> simp [bumpCatTotal] at h ⊢

/-! ## Step lemmas for the first revision's fold -/

/-- Each `forEach` iteration keeps the two currency dictionaries aligned and
conserves USD between the currency and category ledgers. -/
theorem processTransaction_conservation (prices : String → Option ℚ)
    (dateKeys : Int → String × String × String) (s : AggState) (tx : Transaction)
    (s' : AggState) (hinv : aggConservationInv s)
    (h : processTransaction prices dateKeys s tx = some s') :
    aggConservationInv s' := by
  obtain ⟨hkeys, hnodup, hsum⟩ := hinv
  simp only [processTransaction] at h
  split at h
  · rw [if_neg (by decide : ¬ ("WETH" : String) = "")] at h
    split at h
    · cases h
    · injection h with h2
      subst h2
      refine ⟨?_, ?_, ?_⟩
      · dsimp only
        rw [keysOf_bumpQ, keysOf_bumpQ, hkeys]
      · dsimp only
        exact nodupKeys_bumpQ _ _ _ hnodup
      · dsimp only
        rw [sumValues_bumpQ, catTotalsUSDSum_bump, hsum]
  · split at h
    · injection h with h2
      subst h2
      exact ⟨hkeys, hnodup, hsum⟩
    · split at h
      · cases h
      · injection h with h2
        subst h2
        refine ⟨?_, ?_, ?_⟩
        · dsimp only
          rw [keysOf_bumpQ, keysOf_bumpQ, hkeys]
        · dsimp only
          exact nodupKeys_bumpQ _ _ _ hnodup
        · dsimp only
          rw [sumValues_bumpQ, catTotalsUSDSum_bump, hsum]

/-- When a transaction's uppercased symbol stays within the four returned
category buckets, no iteration ever touches the `uncategorized` bucket. -/
theorem processTransaction_uncat (prices : String → Option ℚ)
    (dateKeys : Int → String × String × String) (s : AggState) (tx : Transaction)
    (s' : AggState) (hsym : jsUpper (tx.tokenSymbol.getD "") ∈ fourCategorySymbols)
    (h0 : s.categoryTotals.uncategorized.totalUSD = 0)
    (h : processTransaction prices dateKeys s tx = some s') :
    s'.categoryTotals.uncategorized.totalUSD = 0 := by
  simp only [processTransaction] at h
  split at h
  · rename_i hE
    rw [if_neg (by decide : ¬ ("WETH" : String) = "")] at h
    split at h
    · cases h
    · injection h with h2
      subst h2
      dsimp only
      simpa [hE, bumpCatTotal] using h0
  · rename_i hne
    split at h
    · injection h with h2
      subst h2
      exact h0
    · rename_i hne2
      split at h
      · cases h
      · injection h with h2
        subst h2
        dsimp only
        simp only [fourCategorySymbols, List.mem_cons, List.mem_singleton,
          List.not_mem_nil, or_false] at hsym
        rcases hsym with hu | hu | hu | hu
        · simpa [hu, bumpCatTotal] using h0
        · simpa [hu, bumpCatTotal] using h0
        · exact absurd hu hne
        · exact absurd hu hne2

theorem bumpCatTotal_USD_nonneg (ct : CategoryTotals) (cat : FeeCategory) (v u : ℚ)
    (hu : 0 ≤ u) (ha : 0 ≤ ct.loan_usdc.totalUSD) (hb : 0 ≤ ct.loan_weth.totalUSD)
    (hc : 0 ≤ ct.sales_usdc.totalUSD) (hd : 0 ≤ ct.sales_weth.totalUSD)
    (he : 0 ≤ ct.uncategorized.totalUSD) :
    0 ≤ (bumpCatTotal ct cat v u).loan_usdc.totalUSD ∧
    0 ≤ (bumpCatTotal ct cat v u).loan_weth.totalUSD ∧
    0 ≤ (bumpCatTotal ct cat v u).sales_usdc.totalUSD ∧
    0 ≤ (bumpCatTotal ct cat v u).sales_weth.totalUSD ∧
    0 ≤ (bumpCatTotal ct cat v u).uncategorized.totalUSD := by
  cases cat
  · exact ⟨add_nonneg ha hu, hb, hc, hd, he⟩
  · exact ⟨ha, add_nonneg hb hu, hc, hd, he⟩
  · exact ⟨ha, hb, add_nonneg hc hu, hd, he⟩
  · exact ⟨ha, hb, hc, add_nonneg hd hu, he⟩
  · exact ⟨ha, hb, hc, hd, add_nonneg he hu⟩

/-- With nonnegative prices and nonnegative raw values, each iteration keeps
every accumulated USD figure nonnegative. -/
theorem processTransaction_nonneg (prices : String → Option ℚ)
    (dateKeys : Int → String × String × String) (s : AggState) (tx : Transaction)
    (s' : AggState) (hpr : pricesNonneg prices)
    (hval : ∀ v, parseBigInt tx.value = some v → 0 ≤ v)
    (hinv : aggNonnegInv s)
    (h : processTransaction prices dateKeys s tx = some s') :
    aggNonnegInv s' := by
  obtain ⟨hvals, ha, hb, hc, hd, he⟩ := hinv
  have hP : ∀ K, (0 : ℚ) ≤ (prices K).getD 0 := by
    intro K
    cases hpK : prices K with
    | none => simp
    | some q => simpa using hpr K q hpK
  simp only [processTransaction] at h
  split at h
  · rw [if_neg (by decide : ¬ ("WETH" : String) = "")] at h
    split at h
    · cases h
    · rename_i value heq
      injection h with h2
      subst h2
      cases hbi : parseBigInt tx.value with
      | none =>
        rw [show parseTransactionValue tx.value (jsOrNat tx.tokenDecimal 18) = none by
          simp [parseTransactionValue, hbi]] at heq
        cases heq
      | some v =>
        rw [parseTransactionValue_eq tx.value (jsOrNat tx.tokenDecimal 18) v hbi] at heq
        injection heq with heq2
        have hv : (0 : ℚ) ≤ value := by
          rw [← heq2]
          apply div_nonneg
          · exact_mod_cast hval v hbi
          · positivity
        exact ⟨values_nonneg_bumpQ _ _ _ hvals (mul_nonneg hv (hP "WETH")),
          bumpCatTotal_USD_nonneg s.categoryTotals _ _ _
            (mul_nonneg hv (hP "WETH")) ha hb hc hd he⟩
  · split at h
    · injection h with h2
      subst h2
      exact ⟨hvals, ha, hb, hc, hd, he⟩
    · split at h
      · cases h
      · rename_i value heq
        injection h with h2
        subst h2
        cases hbi : parseBigInt tx.value with
        | none =>
          rw [show parseTransactionValue tx.value (jsOrNat tx.tokenDecimal 18) = none by
            simp [parseTransactionValue, hbi]] at heq
          cases heq
        | some v =>
          rw [parseTransactionValue_eq tx.value (jsOrNat tx.tokenDecimal 18) v hbi] at heq
          injection heq with heq2
          have hv : (0 : ℚ) ≤ value := by
            rw [← heq2]
            apply div_nonneg
            · exact_mod_cast hval v hbi
            · positivity
          exact ⟨values_nonneg_bumpQ _ _ _ hvals
              (mul_nonneg hv (hP (jsUpper (tx.tokenSymbol.getD "")))),
            bumpCatTotal_USD_nonneg s.categoryTotals _ _ _
              (mul_nonneg hv (hP (jsUpper (tx.tokenSymbol.getD "")))) ha hb hc hd he⟩

/-! ## Concrete evaluations of the first revision -/

theorem parse_1000000_6 : parseTransactionValue "1000000" 6 = some 1 := by
  rw [parseTransactionValue_eq "1000000" 6 1000000 (by decide)]
  norm_num

theorem parse_2000000_6 : parseTransactionValue "2000000" 6 = some 2 := by
  rw [parseTransactionValue_eq "2000000" 6 2000000 (by decide)]
  norm_num

theorem aggregateFees_oneUSDC_eq :
    aggregateFees demoPrices demoDateKeys [txEthUSDC] = some oneUSDCReport := by
  simp [aggregateFees, List.foldlM_cons, List.foldlM_nil, processTransaction,
    txEthUSDC, demoDateKeys, demoPrices, jsOrNat, parse_1000000_6, bumpQ,
    upsertWith, bumpPeriod, bumpCatCell, bumpCatTotal, finalizeAggregate,
    sumValues, lookupD, catTotalsUSDSum, mkCategoryBreakdownEntry, oneUSDCReport,
    pdOneUSDC, show jsUpper "USDC" = "USDC" from by decide]

theorem aggregateFees_twoToken_eq :
    aggregateFees demoPrices demoDateKeys [txEthUSDC, txHyperHUSDC] =
      some twoTokenReport := by
  simp [aggregateFees, List.foldlM_cons, List.foldlM_nil, processTransaction,
    txEthUSDC, txHyperHUSDC, demoDateKeys, demoPrices, jsOrNat, parse_1000000_6,
    parse_2000000_6, bumpQ, upsertWith, bumpPeriod, bumpCatCell, bumpCatTotal,
    finalizeAggregate, sumValues, lookupD, catTotalsUSDSum,
    mkCategoryBreakdownEntry, twoTokenReport, pdTwoToken,
    show jsUpper "USDC" = "USDC" from by decide,
    show jsUpper "HUSDC" = "HUSDC" from by decide]
  norm_num

/-! ## C1: USD conservation between the two breakdowns -/

/-- C1 counterexample: aggregating one USDC and one HUSDC transaction (both
priced at 1 USD), `currencyBreakdown` carries 3 USD but the returned
`categoryBreakdown` only 1 USD — the HUSDC transaction lands in the
`uncategorized` bucket, which `categoryBreakdownWithPercentages` drops, so
conservation fails by a full 2 USD (far beyond floating-point tolerance). -/
theorem aggregateFees_conservation_counterexample :
    (aggregateFees demoPrices demoDateKeys [txEthUSDC, txHyperHUSDC]).map
        (fun r => (curBreakdownUSDSum r.currencyBreakdown,
          catBreakdownUSDSum r.categoryBreakdown)) = some (3, 1) ∧
    (3 : ℚ) ≠ 1 := by
  constructor
  · rw [aggregateFees_twoToken_eq]
    simp [twoTokenReport, curBreakdownUSDSum, catBreakdownUSDSum]
    norm_num
  · norm_num

/-- The currency breakdown's USD column sums to the grand accumulated USD
when the two dictionaries are aligned. -/
theorem curBreakdownUSDSum_finalize (s : AggState)
    (hkeys : keysOf s.currencyTotals = keysOf s.currencyTotalsUSD)
    (hnodup : (keysOf s.currencyTotalsUSD).Nodup) :
    curBreakdownUSDSum (finalizeAggregate s).currencyBreakdown =
      sumValues s.currencyTotalsUSD := by
  have h1 : (finalizeAggregate s).currencyBreakdown.map (fun p => p.2.totalUSD) =
      (keysOf s.currencyTotals).map (fun k => lookupD s.currencyTotalsUSD k 0) := by
    unfold finalizeAggregate keysOf
    dsimp only
    rw [List.map_map, List.map_map]
    rfl
  unfold curBreakdownUSDSum
  rw [h1, hkeys, sum_lookupD_keys _ hnodup]

/-- C1 amended: conservation holds exactly (in exact arithmetic) provided
every transaction's uppercased symbol is USDC, WETH or ETH (or empty, i.e.
skipped) — the symbols for which the first revision assigns one of the four
returned category buckets. In general the two sums differ by exactly the
USD accumulated in the `uncategorized` bucket, which the returned
`categoryBreakdown` drops. -/
theorem aggregateFees_conservation (prices : String → Option ℚ)
    (dateKeys : Int → String × String × String) (txs : List Transaction)
    (r : AggregatedFees) (hagg : aggregateFees prices dateKeys txs = some r)
    (hsym : onlyFourCategorySymbols txs) :
    catBreakdownUSDSum r.categoryBreakdown = curBreakdownUSDSum r.currencyBreakdown := by
  unfold aggregateFees at hagg
  obtain ⟨s, hs, hr⟩ := Option.map_eq_some'.mp hagg
  subst hr
  have hinv : aggConservationInv s :=
    foldlM_invariant (processTransaction prices dateKeys) txs
      (fun tx _htx t t' hP hstep =>
        processTransaction_conservation prices dateKeys t tx t' hP hstep)
      {} s ⟨rfl, List.nodup_nil, by norm_num [sumValues, catTotalsUSDSum]⟩ hs
  have huncat : s.categoryTotals.uncategorized.totalUSD = 0 :=
    foldlM_invariant (processTransaction prices dateKeys) txs
      (fun tx htx t t' hP hstep =>
        processTransaction_uncat prices dateKeys t tx t' (hsym tx htx) hP hstep)
      {} s rfl hs
  obtain ⟨hkeys, hnodup, hsum⟩ := hinv
  have hcat : catBreakdownUSDSum (finalizeAggregate s).categoryBreakdown =
      catTotalsUSDSum s.categoryTotals - s.categoryTotals.uncategorized.totalUSD := by
    unfold finalizeAggregate catBreakdownUSDSum mkCategoryBreakdownEntry
      catTotalsUSDSum
    dsimp only
    ring
  rw [hcat, huncat, curBreakdownUSDSum_finalize s hkeys hnodup, hsum]
  ring

theorem aggregateFees_conservation_witness :
    aggregateFees demoPrices demoDateKeys [txEthUSDC] = some oneUSDCReport ∧
    onlyFourCategorySymbols [txEthUSDC] ∧
    catBreakdownUSDSum oneUSDCReport.categoryBreakdown =
      curBreakdownUSDSum oneUSDCReport.currencyBreakdown :=
  ⟨aggregateFees_oneUSDC_eq,
    by intro tx htx; simp only [List.mem_singleton] at htx; subst htx; decide,
    aggregateFees_conservation demoPrices demoDateKeys [txEthUSDC] oneUSDCReport
      aggregateFees_oneUSDC_eq
      (by intro tx htx; simp only [List.mem_singleton] at htx; subst htx; decide)⟩

/-! ## C2: percentage invariants -/

/-- C2 counterexample: over one USDC and one HUSDC transaction, the
`sales_usdc` entry of the returned category breakdown has nonzero USD total
(1 USD), yet the four returned percentages sum to 100/3 ≈ 33.3 — far outside
[99.999, 100.001] — because the denominator `totalCategoriesUSD` still
includes the dropped `uncategorized` bucket's 2 USD. -/
theorem aggregateFees_percentage_counterexample :
    (aggregateFees demoPrices demoDateKeys [txEthUSDC, txHyperHUSDC]).map
        (fun r => (catBreakdownPctSum r.categoryBreakdown,
          r.categoryBreakdown.sales_usdc.totalUSD)) = some (100 / 3, 1) ∧
    ¬ ((99.999 : ℚ) ≤ 100 / 3 ∧ (100 / 3 : ℚ) ≤ 100.001) := by
  constructor
  · rw [aggregateFees_twoToken_eq]
    simp [twoTokenReport, catBreakdownPctSum]
  · norm_num

/-- With a positive grand total, the currency percentages sum to exactly
100. -/
theorem curBreakdownPctSum_finalize (s : AggState)
    (hkeys : keysOf s.currencyTotals = keysOf s.currencyTotalsUSD)
    (hnodup : (keysOf s.currencyTotalsUSD).Nodup)
    (hpos : sumValues s.currencyTotalsUSD > 0) :
    curBreakdownPctSum (finalizeAggregate s).currencyBreakdown = 100 := by
  have h1 : (finalizeAggregate s).currencyBreakdown.map (fun p => p.2.percentage) =
      (keysOf s.currencyTotals).map
        (fun k => lookupD s.currencyTotalsUSD k 0 / sumValues s.currencyTotalsUSD
          * 100) := by
    unfold finalizeAggregate keysOf
    dsimp only
    rw [List.map_map, List.map_map]
    refine List.map_congr_left ?_
    intro p _hp
    simp only [Function.comp_apply]
    rw [if_pos hpos]
  unfold curBreakdownPctSum
  rw [h1, hkeys]
  have h2 : ∀ k : String,
      lookupD s.currencyTotalsUSD k 0 / sumValues s.currencyTotalsUSD * 100 =
      lookupD s.currencyTotalsUSD k 0 * (100 / sumValues s.currencyTotalsUSD) := by
    intro k
    ring
  simp only [h2]
  rw [List.sum_map_mul_right, sum_lookupD_keys _ hnodup]
  field_simp

/-- With a non-positive grand total, every currency percentage is 0. -/
theorem curBreakdown_pct_zero_finalize (s : AggState)
    (hzero : ¬ sumValues s.currencyTotalsUSD > 0) :
    ∀ p ∈ (finalizeAggregate s).currencyBreakdown, p.2.percentage = 0 := by
  intro p hp
  unfold finalizeAggregate at hp
  dsimp only at hp
  obtain ⟨q, _hq, hqe⟩ := List.mem_map.mp hp
  rw [← hqe]
  dsimp only
  rw [if_neg hzero]

/-- With a positive denominator and an empty `uncategorized` bucket, the
four returned category percentages sum to exactly 100. -/
theorem catBreakdownPctSum_finalize (s : AggState)
    (hpos : catTotalsUSDSum s.categoryTotals > 0)
    (huncat : s.categoryTotals.uncategorized.totalUSD = 0) :
    catBreakdownPctSum (finalizeAggregate s).categoryBreakdown = 100 := by
  have h4 : s.categoryTotals.loan_usdc.totalUSD + s.categoryTotals.loan_weth.totalUSD
      + s.categoryTotals.sales_usdc.totalUSD + s.categoryTotals.sales_weth.totalUSD =
      catTotalsUSDSum s.categoryTotals := by
    unfold catTotalsUSDSum
    rw [huncat]
    ring
  have hne := ne_of_gt hpos
  unfold finalizeAggregate catBreakdownPctSum mkCategoryBreakdownEntry
  dsimp only
  rw [if_pos hpos, if_pos hpos, if_pos hpos, if_pos hpos]
  field_simp
  linear_combination (100 : ℚ) * h4

/-- With a non-positive denominator, all four category percentages are 0. -/
theorem catBreakdown_pct_zero_finalize (s : AggState)
    (hzero : ¬ catTotalsUSDSum s.categoryTotals > 0) :
    (finalizeAggregate s).categoryBreakdown.loan_usdc.percentage = 0 ∧
    (finalizeAggregate s).categoryBreakdown.loan_weth.percentage = 0 ∧
    (finalizeAggregate s).categoryBreakdown.sales_usdc.percentage = 0 ∧
    (finalizeAggregate s).categoryBreakdown.sales_weth.percentage = 0 := by
  unfold finalizeAggregate mkCategoryBreakdownEntry
  dsimp only
  simp [if_neg hzero]

/-- C2 amended: with nonnegative prices and nonnegative raw values, the
percentage invariant holds — exactly, with sum 100 — for the
`currencyBreakdown` of every report; for the returned `categoryBreakdown` it
additionally requires that no transaction lands in the dropped
`uncategorized` bucket (every uppercased symbol among USDC/WETH/ETH, or
empty and skipped); otherwise the four returned percentages sum to strictly
less than 100 (see the counterexample). All percentages are 0 whenever the
corresponding grand USD total is 0. -/
theorem aggregateFees_percentage_invariant (prices : String → Option ℚ)
    (dateKeys : Int → String × String × String) (txs : List Transaction)
    (r : AggregatedFees) (hagg : aggregateFees prices dateKeys txs = some r)
    (hpr : pricesNonneg prices) (hval : valuesNonneg txs) :
    ((∃ p ∈ r.currencyBreakdown, p.2.totalUSD ≠ 0) →
      curBreakdownPctSum r.currencyBreakdown = 100) ∧
    (curBreakdownUSDSum r.currencyBreakdown = 0 →
      ∀ p ∈ r.currencyBreakdown, p.2.percentage = 0) ∧
    (onlyFourCategorySymbols txs →
      ((r.categoryBreakdown.loan_usdc.totalUSD ≠ 0 ∨
        r.categoryBreakdown.loan_weth.totalUSD ≠ 0 ∨
        r.categoryBreakdown.sales_usdc.totalUSD ≠ 0 ∨
        r.categoryBreakdown.sales_weth.totalUSD ≠ 0) →
        catBreakdownPctSum r.categoryBreakdown = 100) ∧
      (catBreakdownUSDSum r.categoryBreakdown = 0 →
        r.categoryBreakdown.loan_usdc.percentage = 0 ∧
        r.categoryBreakdown.loan_weth.percentage = 0 ∧
        r.categoryBreakdown.sales_usdc.percentage = 0 ∧
        r.categoryBreakdown.sales_weth.percentage = 0)) := by
  unfold aggregateFees at hagg
  obtain ⟨s, hs, hr⟩ := Option.map_eq_some'.mp hagg
  subst hr
  have hinv : aggConservationInv s :=
    foldlM_invariant (processTransaction prices dateKeys) txs
      (fun tx _htx t t' hP hstep =>
        processTransaction_conservation prices dateKeys t tx t' hP hstep)
      {} s ⟨rfl, List.nodup_nil, by norm_num [sumValues, catTotalsUSDSum]⟩ hs
  have hnn : aggNonnegInv s :=
    foldlM_invariant (processTransaction prices dateKeys) txs
      (fun tx htx t t' hP hstep =>
        processTransaction_nonneg prices dateKeys t tx t' hpr
          (fun v hv => hval tx htx v hv) hP hstep)
      {} s ⟨(by intro q hq; cases hq), le_refl 0, le_refl 0, le_refl 0, le_refl 0,
        le_refl 0⟩ hs
  obtain ⟨hkeys, hnodup, _hsum⟩ := hinv
  obtain ⟨hvals, ha, hb, hc, hd, he⟩ := hnn
  refine ⟨?_, ?_, ?_⟩
  · rintro ⟨p, hp, hne⟩
    obtain ⟨q, _hq, hqe⟩ := List.mem_map.mp hp
    have hlu : p.2.totalUSD = lookupD s.currencyTotalsUSD q.1 0 := by
      rw [← hqe]
    have hmem : lookupD s.currencyTotalsUSD q.1 0 ∈
        s.currencyTotalsUSD.map Prod.snd := by
      rcases lookupD_mem_or_zero s.currencyTotalsUSD q.1 with h0 | hm
      · rw [hlu, h0] at hne
        exact absurd rfl hne
      · exact hm
    have hpos : sumValues s.currencyTotalsUSD > 0 := by
      have hle : lookupD s.currencyTotalsUSD q.1 0 ≤ sumValues s.currencyTotalsUSD :=
        List.single_le_sum hvals _ hmem
      have hgt : 0 < lookupD s.currencyTotalsUSD q.1 0 :=
        lt_of_le_of_ne (hvals _ hmem) (fun h0 => hne (by rw [hlu, ← h0]))
      linarith
    exact curBreakdownPctSum_finalize s hkeys hnodup hpos
  · intro hzero
    have hg : sumValues s.currencyTotalsUSD = 0 := by
      rw [← curBreakdownUSDSum_finalize s hkeys hnodup]
      exact hzero
    exact curBreakdown_pct_zero_finalize s (by rw [hg]; norm_num)
  · intro hsym
    have huncat : s.categoryTotals.uncategorized.totalUSD = 0 :=
      foldlM_invariant (processTransaction prices dateKeys) txs
        (fun tx htx t t' hP hstep =>
          processTransaction_uncat prices dateKeys t tx t' (hsym tx htx) hP hstep)
        {} s rfl hs
    have hfields :
        (finalizeAggregate s).categoryBreakdown.loan_usdc.totalUSD =
          s.categoryTotals.loan_usdc.totalUSD ∧
        (finalizeAggregate s).categoryBreakdown.loan_weth.totalUSD =
          s.categoryTotals.loan_weth.totalUSD ∧
        (finalizeAggregate s).categoryBreakdown.sales_usdc.totalUSD =
          s.categoryTotals.sales_usdc.totalUSD ∧
        (finalizeAggregate s).categoryBreakdown.sales_weth.totalUSD =
          s.categoryTotals.sales_weth.totalUSD := ⟨rfl, rfl, rfl, rfl⟩
    obtain ⟨hf1, hf2, hf3, hf4⟩ := hfields
    constructor
    · intro hnz
      have hpos : catTotalsUSDSum s.categoryTotals > 0 := by
        unfold catTotalsUSDSum
        rw [huncat]
        rcases hnz with hnz | hnz | hnz | hnz
        · rw [hf1] at hnz
          have := lt_of_le_of_ne ha (Ne.symm hnz)
          linarith
        · rw [hf2] at hnz
          have := lt_of_le_of_ne hb (Ne.symm hnz)
          linarith
        · rw [hf3] at hnz
          have := lt_of_le_of_ne hc (Ne.symm hnz)
          linarith
        · rw [hf4] at hnz
          have := lt_of_le_of_ne hd (Ne.symm hnz)
          linarith
      exact catBreakdownPctSum_finalize s hpos huncat
    · intro hzero
      have hz4 : catTotalsUSDSum s.categoryTotals = 0 := by
        unfold catBreakdownUSDSum at hzero
        rw [hf1, hf2, hf3, hf4] at hzero
        unfold catTotalsUSDSum
        rw [huncat]
        linarith
      exact catBreakdown_pct_zero_finalize s (by rw [hz4]; norm_num)

theorem aggregateFees_percentage_invariant_witness :
    aggregateFees demoPrices demoDateKeys [txEthUSDC] = some oneUSDCReport ∧
    pricesNonneg demoPrices ∧
    valuesNonneg [txEthUSDC] ∧
    curBreakdownPctSum oneUSDCReport.currencyBreakdown = 100 := by
  have hpr : pricesNonneg demoPrices := by
    intro c q h
    unfold demoPrices at h
    split_ifs at h <;> (injection h with h2; rw [← h2]; norm_num)
  have hval : valuesNonneg [txEthUSDC] := by
    intro tx htx v hv
    simp only [List.mem_singleton] at htx
    subst htx
    rw [show parseBigInt txEthUSDC.value = some 1000000 from by decide] at hv
    injection hv with hv2
    rw [← hv2]
    norm_num
  refine ⟨aggregateFees_oneUSDC_eq, hpr, hval, ?_⟩
  exact (aggregateFees_percentage_invariant demoPrices demoDateKeys [txEthUSDC]
    oneUSDCReport aggregateFees_oneUSDC_eq hpr hval).1
    ⟨("USDC", ⟨1, 1, 100⟩), by simp [oneUSDCReport], by norm_num⟩

/-! ## C8: cross-network symbol collision isolation -/

/-- C8: a HyperEVM USDC transfer is remapped to the network-qualified alias
HUSDC, and aggregating one Ethereum USDC transaction (1.0 native) with one
HyperEVM HUSDC transaction (2.0 native) yields a `currencyBreakdown` with
two distinct keys holding native totals 1.0 and 2.0 — never a merged 3.0
bucket. -/
theorem symbol_collision_isolation :
    hyperevmNormalizeSymbol (some "USDC") (some "USD Coin") = "HUSDC" ∧
    (aggregateFees demoPrices demoDateKeys [txEthUSDC, txHyperHUSDC]).map
        (fun r => r.currencyBreakdown.map fun p => (p.1, p.2.total)) =
      some [("USDC", 1), ("HUSDC", 2)] ∧
    ("USDC" : String) ≠ "HUSDC" := by
  refine ⟨by decide, ?_, by decide⟩
  rw [aggregateFees_twoToken_eq]
  simp [twoTokenReport]

/-! ## C6: failure isolation between networks -/

/-- Every transaction produced by the Ethereum collector carries a `value`
string that `BigInt` parses (its filter already evaluated
`BigInt(tx.value) > 0`). -/
theorem filterMapEthereum_value_parses :
    ∀ (recs : List RawRecord) (txs : List Transaction),
      filterMapEthereum recs = some txs →
      ∀ tx ∈ txs, (parseBigInt tx.value).isSome := by
  intro recs
  induction recs with
  | nil =>
    intro txs h tx htx
    simp only [filterMapEthereum] at h
    injection h with h2
    subst h2
    cases htx
  | cons rec rest ih =>
    intro txs h tx htx
    simp only [filterMapEthereum] at h
    rcases hk : ethKeepRecord rec with _ | b
    · rw [hk] at h
      cases h
    · rw [hk] at h
      cases b
      · exact ih txs h tx htx
      · simp only at h
        obtain ⟨l, hl, hle⟩ := Option.map_eq_some'.mp h
        subst hle
        rcases List.mem_cons.mp htx with heq | hmem
        · subst heq
          show (parseBigInt (ethMapRecord rec).value).isSome
          have hvv : (ethMapRecord rec).value = rec.value := rfl
          rw [hvv]
          cases hp : parseBigInt rec.value with
          | some v => rfl
          | none =>
            exfalso
            simp only [ethKeepRecord, hp] at hk
            split at hk
            · cases hk
            · injection hk with hk2
              cases hk2
        · exact ih l hl tx hmem

/-- A fold whose every step succeeds at every state succeeds. -/
theorem foldlM_isSome {σ α : Type} (f : σ → α → Option σ) (l : List α)
    (hstep : ∀ a ∈ l, ∀ s, ∃ s', f s a = some s') :
    ∀ init, ∃ s, l.foldlM f init = some s := by
  induction l with
  | nil =>
    intro init
    exact ⟨init, rfl⟩
  | cons head tail ih =>
    intro init
    obtain ⟨s1, hs1⟩ := hstep head (List.mem_cons_self head tail) init
    obtain ⟨s2, hs2⟩ := ih (fun a ha s => hstep a (List.mem_cons_of_mem _ ha) s) s1
    refine ⟨s2, ?_⟩
    rw [List.foldlM_cons, hs1]
    simpa using hs2

/-- A `forEach` iteration always succeeds when the raw value parses. -/
theorem processTransaction_isSome (prices : String → Option ℚ)
    (dateKeys : Int → String × String × String) (s : AggState) (tx : Transaction)
    (hok : (parseBigInt tx.value).isSome) :
    ∃ s', processTransaction prices dateKeys s tx = some s' := by
  obtain ⟨v, hv⟩ := Option.isSome_iff_exists.mp hok
  have hparse := parseTransactionValue_eq tx.value (jsOrNat tx.tokenDecimal 18) v hv
  simp only [processTransaction, hparse]
  split
  · exact ⟨_, rfl⟩
  · split
    · exact ⟨_, rfl⟩
    · exact ⟨_, rfl⟩

/-- Aggregation (first revision) always returns a report when every raw
value parses. -/
theorem aggregateFees_total (prices : String → Option ℚ)
    (dateKeys : Int → String × String × String) (txs : List Transaction)
    (hok : ∀ tx ∈ txs, (parseBigInt tx.value).isSome) :
    ∃ r, aggregateFees prices dateKeys txs = some r := by
  obtain ⟨s, hs⟩ := foldlM_isSome (processTransaction prices dateKeys) txs
    (fun tx htx s => processTransaction_isSome prices dateKeys s tx (hok tx htx)) {}
  refine ⟨finalizeAggregate s, ?_⟩
  unfold aggregateFees
  rw [hs]
  rfl

/-- C6: a total fetch failure on HyperEVM makes its collector return the
empty list (it never throws), and the fees-route pipeline still returns a
valid aggregated report built from the Ethereum collector's transactions
alone — not an empty or error result. -/
theorem partial_network_failure_isolation (e : String)
    (ethRecords : List RawRecord) (txs : List Transaction)
    (prices : String → Option ℚ) (dateKeys : Int → String × String × String)
    (heth : filterMapEthereum ethRecords = some txs) (hne : txs ≠ []) :
    fetchHyperEVMTransactions (.error e) = [] ∧
    ∃ r, aggregateFees prices dateKeys txs = some r ∧
      feesRoutePipeline (.ok ethRecords) (.error e) prices dateKeys = .ok r := by
  refine ⟨rfl, ?_⟩
  obtain ⟨r, hr⟩ := aggregateFees_total prices dateKeys txs
    (filterMapEthereum_value_parses ethRecords txs heth)
  refine ⟨r, hr, ?_⟩
  simp only [feesRoutePipeline, fetchEthereumTransactions,
    fetchHyperEVMTransactions, heth, List.append_nil]
  rw [if_neg (fun h => hne (List.length_eq_zero.mp h)), hr]

theorem partial_network_failure_isolation_witness :
    filterMapEthereum (List.replicate 50 rawUSDCRecord) =
      some (List.replicate 50 (ethMapRecord rawUSDCRecord)) ∧
    List.replicate 50 (ethMapRecord rawUSDCRecord) ≠ [] ∧
    (fetchHyperEVMTransactions (.error "hyperevm fetch failed") = [] ∧
      ∃ r, aggregateFees demoPrices demoDateKeys
          (List.replicate 50 (ethMapRecord rawUSDCRecord)) = some r ∧
        feesRoutePipeline (.ok (List.replicate 50 rawUSDCRecord))
          (.error "hyperevm fetch failed") demoPrices demoDateKeys = .ok r) :=
  ⟨by decide, by decide,
    partial_network_failure_isolation "hyperevm fetch failed"
      (List.replicate 50 rawUSDCRecord)
      (List.replicate 50 (ethMapRecord rawUSDCRecord)) demoPrices demoDateKeys
      (by decide) (by decide)⟩
